import Mathlib

/-
Verification of the naria2 monitoring core (Aria2Client and Aria2Monitor,
source file src/unnamed/part_001 of the repository).

The development has two semantic layers, both translated from the same
source functions:

1. An atomic sequential semantics for caller initiated operations
   (getTask, watchStatus, listActive, on, off, onDownloadProgress,
   downloadUri, and the polling interval callback installed by start).
   Each operation is a state passing function on MonitorState with an
   explicit server oracle and an RPC call log.

2. A small step interleaving semantics for concurrent calls into the
   monitor (the Machine namespace further below).  A JavaScript async
   function runs synchronously between awaits; the machine makes every
   await a suspension point and lets a scheduler pick which pending
   computation runs its next synchronous segment.  This over
   approximates the real event loop, so properties proved over all
   schedules hold of the source, while concrete schedules correspond to
   real executions.
-/

namespace Naria2

/-- Status snapshot returned by the aria2 RPC layer, restricted to the
fields the monitor core inspects: the gid, whether the status carries
bittorrent metadata, and the optional following gid. -/
structure Aria2Status where
  gid : String
  bittorrent : Bool
  following : Option String
deriving DecidableEq

/-- RPC calls the client and monitor issue, recorded in an order
preserving log. -/
inductive RpcCall
  | tellStatus (gid : String)
  | tellActive
  | multicall (gids : List String)
  | addUri (uris : List String)
deriving DecidableEq

/-- Errors surfaced by monitor operations: a failed direct status query
for a gid, a failed batched multicall, or exhaustion of the recursion
fuel that bounds the following chain. -/
inductive MonErr
  | queryFailed (gid : String)
  | multicallFailed
  | outOfFuel
deriving DecidableEq

/-- Errors surfaced by client operations: a download submission that did
not yield a gid (carrying the underlying cause) or an error from the
monitor while resolving the returned gid. -/
inductive ClientErr
  | submission (cause : Nat)
  | monitor (e : MonErr)
deriving DecidableEq

/-- A Task or Torrent instance.  Identity is the allocation number tid;
isTorrent records whether the instance was constructed as a Torrent, and
parent is the tid of the resolved following task stored in a Torrent at
construction. -/
structure TaskObj where
  tid : Nat
  gid : String
  isTorrent : Bool
  parent : Option Nat
  status : Option Aria2Status
  timestamp : Nat
deriving DecidableEq

/-- State owned by one Aria2Monitor: the registry (gid to tid), the heap
of allocated task instances, the allocation counter, the progress
subscription set, the emitter listener registrations, the RPC log, the
emitted events (event key and task tid) and a logical clock standing for
new Date(). -/
structure MonitorState where
  map : List (String × Nat)
  heap : List TaskObj
  nextId : Nat
  progressIds : List String
  listeners : List (String × Nat)
  log : List RpcCall
  events : List (String × Nat)
  now : Nat
deriving DecidableEq

/-- Oracle for the aria2 server: answers to tellStatus (none is a failed
query), tellActive, the batched multicall (none is a rejected call) and
addUri (an error value is the underlying cause of a failed submission). -/
structure Server where
  tellStatus : String → Option Aria2Status
  tellActive : List Aria2Status
  multicallResp : List String → Option (List (Option Aria2Status))
  addUri : List String → Except Nat String

/-- Lookup in the registry association list (JavaScript Map get). -/
def alookup : List (String × Nat) → String → Option Nat
  | [], _ => none
  | (k, v) :: rest, g => if k = g then some v else alookup rest g

/-- Insert or overwrite in the registry association list, preserving
insertion order (JavaScript Map set). -/
def aset : List (String × Nat) → String → Nat → List (String × Nat)
  | [], g, t => [(g, t)]
  | (k, v) :: rest, g, t => if k = g then (g, t) :: rest else (k, v) :: aset rest g t

/-- Lookup of a task instance by tid (first match). -/
def hlookup : List TaskObj → Nat → Option TaskObj
  | [], _ => none
  | obj :: rest, t => if obj.tid = t then some obj else hlookup rest t

/-- Overwrite the status snapshot and timestamp of the instance with the
given tid, as the source does through Reflect.set on existing tasks. -/
def hupdate : List TaskObj → Nat → Aria2Status → Nat → List TaskObj
  | [], _, _, _ => []
  | obj :: rest, t, st, ts =>
    (if obj.tid = t then { obj with status := some st, timestamp := ts } else obj)
      :: hupdate rest t st ts

/-- Add a gid to a JavaScript Set modelled as a duplicate free list in
insertion order. -/
def addId (ids : List String) (g : String) : List String :=
  if g ∈ ids then ids else ids ++ [g]

/-- Append an RPC call to the log. -/
def logCall (s : MonitorState) (c : RpcCall) : MonitorState :=
  { s with log := s.log ++ [c] }

/-- Translation of Aria2Monitor.getTask (src/unnamed/part_001 lines
243 to 264).  Returns the registry entry when present; otherwise issues
tellStatus, re-checks the registry (the Concurrent comment in the
source), resolves the following gid recursively when present, constructs
a Torrent when the status carries bittorrent metadata (with the resolved
following task as parent) and a plain Task otherwise, inserts it into
the registry and returns it.  Recursion on the following chain is
bounded by fuel; the source recursion has no bound. -/
def getTask (srv : Server) : Nat → MonitorState → String → MonitorState × Except MonErr Nat
  | 0, s, _ => (s, .error .outOfFuel)
  | fuel + 1, s, gid =>
    match alookup s.map gid with
    | some tid => (s, .ok tid)
    | none =>
      let s1 := logCall s (.tellStatus gid)
      match srv.tellStatus gid with
      | none => (s1, .error (.queryFailed gid))
      | some status =>
        match alookup s1.map gid with
        | some tid => (s1, .ok tid)
        | none =>
          let fres : MonitorState × Except MonErr (Option Nat) :=
            match status.following with
            | some f =>
              match getTask srv fuel s1 f with
              | (s2, .ok p) => (s2, .ok (some p))
              | (s2, .error e) => (s2, .error e)
            | none => (s1, .ok none)
          match fres with
          | (s2, .error e) => (s2, .error e)
          | (s2, .ok parentRef) =>
            let tid := s2.nextId
            let obj : TaskObj :=
              { tid := tid, gid := gid, isTorrent := status.bittorrent,
                parent := if status.bittorrent then parentRef else none,
                status := some status, timestamp := s2.now }
            ({ s2 with map := aset s2.map gid tid, heap := s2.heap ++ [obj],
                       nextId := tid + 1, now := s2.now + 1 }, .ok tid)

/-- Translation of Aria2Monitor.watchStatus (lines 266 to 269): an alias
of getTask. -/
def watchStatus (srv : Server) (fuel : Nat) (s : MonitorState) (gid : String) :
    MonitorState × Except MonErr Nat :=
  getTask srv fuel s gid

/-- Loop body of Aria2Monitor.listActive (lines 230 to 240): for each
status, remember whether the gid was already tracked, resolve the task,
and overwrite status and timestamp only on entries that already
existed. -/
def applyActive (srv : Server) (fuel : Nat) :
    List Aria2Status → MonitorState → MonitorState × Except MonErr (List Nat)
  | [], s => (s, .ok [])
  | status :: rest, s =>
    let fresh := (alookup s.map status.gid).isNone
    match getTask srv fuel s status.gid with
    | (s1, .error e) => (s1, .error e)
    | (s1, .ok tid) =>
      let s2 :=
        if fresh then s1
        else { s1 with heap := hupdate s1.heap tid status s1.now, now := s1.now + 1 }
      match applyActive srv fuel rest s2 with
      | (s3, .error e) => (s3, .error e)
      | (s3, .ok tids) => (s3, .ok (tid :: tids))

/-- Translation of Aria2Monitor.listActive (lines 228 to 241): one
tellActive call, then reconciliation of every returned status. -/
def listActive (srv : Server) (fuel : Nat) (s : MonitorState) :
    MonitorState × Except MonErr (List Nat) :=
  applyActive srv fuel srv.tellActive (logCall s .tellActive)

/-- Whether an event key starts with the text progress: (the source uses
key.startsWith).  Modelled on the underlying character list. -/
def isProgressKey (key : String) : Bool :=
  decide (key.data.take 9 = "progress:".data)

/-- The gid part of a progress event key (the source slices off the
first nine characters). -/
def progressKeyGid (key : String) : String :=
  String.mk (key.data.drop 9)

/-- Translation of Aria2Monitor.on (lines 272 to 278): a progress key
adds its gid to the progress subscription set; every key registers the
handler on the emitter. -/
def onEvent (s : MonitorState) (key : String) (handler : Nat) : MonitorState :=
  let s1 :=
    if isProgressKey key then
      { s with progressIds := addId s.progressIds (progressKeyGid key) }
    else s
  { s1 with listeners := s1.listeners ++ [(key, handler)] }

/-- Removal of the first matching handler registration (the mitt off
path with an explicit handler). -/
def removeListener : List (String × Nat) → String → Nat → List (String × Nat)
  | [], _, _ => []
  | (k, h) :: rest, key, handler =>
    if k = key ∧ h = handler then rest
    else (k, h) :: removeListener rest key handler

/-- Translation of Aria2Monitor.off (lines 280 to 282): removes the
handler (or all handlers of the key when none is given) from the emitter
and nothing else; in particular the progress subscription set is not
touched. -/
def offEvent (s : MonitorState) (key : String) (handler : Option Nat) : MonitorState :=
  match handler with
  | some h => { s with listeners := removeListener s.listeners key h }
  | none => { s with listeners := s.listeners.filter (fun p => p.1 != key) }

/-- Status application of one multicall result entry (lines 303 to 309):
status and timestamp are overwritten only on a task that already existed
before the loop iteration, then one progress event is recorded. -/

def applyProgress (s : MonitorState) (tid : Nat) (status : Aria2Status) (fresh : Bool) :
    MonitorState :=
  let s2 :=
    if fresh then s
    else { s with heap := hupdate s.heap tid status s.now, now := s.now + 1 }
  { s2 with events := s2.events ++ [("progress:" ++ status.gid, tid)] }

/-- Loop of Aria2Monitor.onDownloadProgress over the multicall results
(lines 299 to 310): entries without a gid are skipped; for the rest the
task is resolved and the status applied.  An error from getTask rejects
the whole callback but keeps the state reached so far. -/
def processStatuses (srv : Server) (fuel : Nat) :
    List (Option Aria2Status) → MonitorState → MonitorState × Option MonErr
  | [], s => (s, none)
  | none :: rest, s => processStatuses srv fuel rest s
  | some status :: rest, s =>
    let fresh := (alookup s.map status.gid).isNone
    match getTask srv fuel s status.gid with
    | (s1, .error e) => (s1, some e)
    | (s1, .ok tid) => processStatuses srv fuel rest (applyProgress s1 tid status fresh)

/-- Translation of Aria2Monitor.onDownloadProgress (lines 286 to 311):
no RPC call at all when the progress subscription set is empty,
otherwise exactly one batched multicall whose parameter list is the
subscription set, followed by the result loop. -/
def onDownloadProgress (srv : Server) (fuel : Nat) (s : MonitorState) :
    MonitorState × Option MonErr :=
  if s.progressIds = [] then (s, none)
  else
    let s1 := logCall s (.multicall s.progressIds)
    match srv.multicallResp s.progressIds with
    | none => (s1, some .multicallFailed)
    | some resp => processStatuses srv fuel resp s1

/-- State of the polling loop installed by Aria2Monitor.start: the
monitor state plus the rejections that escaped the interval callback. -/
structure LoopState where
  ms : MonitorState
  unhandled : List MonErr
deriving DecidableEq

/-- Translation of the interval callback installed by start (lines 214
to 216).  The callback awaits onDownloadProgress and nothing in the
source catches a rejection of that call, so a tick error surfaces as an
unhandled promise rejection; the interval itself keeps firing. -/
def intervalTick (srv : Server) (fuel : Nat) (ls : LoopState) : LoopState :=
  match onDownloadProgress srv fuel ls.ms with
  | (s1, none) => { ls with ms := s1 }
  | (s1, some e) => { ms := s1, unhandled := ls.unhandled ++ [e] }

/-- Repeated firing of the interval, one oracle per tick. -/
def runTicks (fuel : Nat) : List Server → LoopState → LoopState
  | [], ls => ls
  | srv :: rest, ls => runTicks fuel rest (intervalTick srv fuel ls)

/-- Translation of Aria2Client.downloadUri (lines 107 to 122): one
addUri call; a result that is not a gid is rethrown with its cause;
otherwise the task handle comes from monitor.watchStatus. -/
def downloadUri (srv : Server) (fuel : Nat) (s : MonitorState) (uris : List String) :
    MonitorState × Except ClientErr Nat :=
  let s1 := logCall s (.addUri uris)
  match srv.addUri uris with
  | .error cause => (s1, .error (.submission cause))
  | .ok gid =>
    match watchStatus srv fuel s1 gid with
    | (s2, .ok tid) => (s2, .ok tid)
    | (s2, .error e) => (s2, .error (.monitor e))

/-- Monitor state holding no tasks, subscriptions or history. -/
def emptyMonitor : MonitorState :=
  { map := [], heap := [], nextId := 0, progressIds := [], listeners := [],
    log := [], events := [], now := 0 }

end Naria2

namespace Naria2.Machine

/-
Small step interleaving semantics of Aria2Monitor.getTask (lines 243 to
264), the push notification handlers (lines 192 to 212 and 313 to 336)
and Aria2Monitor.close (lines 224 to 226).  Every await in the source is
a suspension point; a schedule decides which suspended computation runs
its next synchronous segment.  The server oracle is total here, so every
status query succeeds.
-/

/-- Status fields the machine needs: bittorrent metadata flag and the
optional following gid (the gid itself is the query key). -/
structure RawStatus where
  bittorrent : Bool
  following : Option String
deriving DecidableEq

/-- Total server oracle for the machine. -/
def World : Type := String → RawStatus

/-- Why a getTask computation is running: a direct caller (watchStatus,
downloadUri or an explicit query) identified by a caller id and the
requested gid, or a push notification handler that will emit the given
event key with the resolved task. -/
inductive Purpose
  | caller (id : Nat) (gid : String)
  | notifier (key : String)
deriving DecidableEq

/-- The synchronous segment a computation will run next.  enter is the
head of getTask up to the registry check; gotStatus resumes after the
tellStatus await with the re-check; build resumes after the await of the
recursive getTask for the following gid and constructs the task (the
source has no further registry check there); emitPending is the emitter
call of a notification handler after its getTask resolved. -/
inductive Seg
  | enter (gid : String)
  | gotStatus (gid : String) (st : RawStatus)
  | build (gid : String) (st : RawStatus) (ptid : Nat)
  | emitPending (tid : Nat)
  | done
deriving DecidableEq

/-- One suspended computation: its purpose, the stack of enclosing
getTask frames waiting for a following gid to resolve (innermost first)
and the segment to run next. -/
structure Coro where
  purpose : Purpose
  stack : List (String × RawStatus)
  seg : Seg
deriving DecidableEq

/-- A constructed Task or Torrent instance in the machine. -/
structure CTask where
  tid : Nat
  gid : String
  isTorrent : Bool
  parent : Option Nat
  status : RawStatus
deriving DecidableEq

/-- Shared machine state: registry, instance heap, allocation counter,
the log of issued tellStatus queries, the emitted events, the results
delivered to direct callers (caller id, gid, tid), the flags cleared by
Aria2Monitor.close, and the suspended computations. -/
structure MachineState where
  map : List (String × Nat)
  heap : List CTask
  nextId : Nat
  queries : List String
  events : List (String × Nat)
  results : List (Nat × String × Nat)
  subsActive : Bool
  timerActive : Bool
  coros : List Coro
deriving DecidableEq

/-- Event key of a notification handler. -/
def keyOf : Purpose → String
  | .caller _ g => "caller:" ++ g
  | .notifier key => key

/-- Deliver a resolved task to a computation: pop the enclosing getTask
frame into a build segment, or finish the computation (record the result
for a caller, move a notification handler to its emit segment). -/
def finishCoro (s : MachineState) (i : Nat) (c : Coro) (tid : Nat) : MachineState :=
  match c.stack with
  | (g, st) :: rest =>
    { s with coros := s.coros.set i { purpose := c.purpose, stack := rest, seg := .build g st tid } }
  | [] =>
    match c.purpose with
    | .caller id g0 =>
      { s with results := s.results ++ [(id, g0, tid)],
               coros := s.coros.set i { c with seg := .done } }
    | .notifier _ =>
      { s with coros := s.coros.set i { c with seg := .emitPending tid } }

/-- Run the next synchronous segment of computation i, following the
source text of getTask: registry hit returns the entry; otherwise the
tellStatus query is issued and the computation suspends; on resumption
the registry is re-checked, then either the following gid spawns an
inner getTask (pushing the current frame) or the task is constructed,
inserted and returned; a build segment constructs a Torrent whose parent
is the resolved following task without any further registry check. -/
def stepRun (w : World) (s : MachineState) (i : Nat) : MachineState :=
  match s.coros.get? i with
  | none => s
  | some c =>
    match c.seg with
    | .done => s
    | .enter g =>
      match alookup s.map g with
      | some tid => finishCoro s i c tid
      | none =>
        { s with queries := s.queries ++ [g],
                 coros := s.coros.set i { c with seg := .gotStatus g (w g) } }
    | .gotStatus g st =>
      match alookup s.map g with
      | some tid => finishCoro s i c tid
      | none =>
        match st.following with
        | some f =>
          { s with coros := s.coros.set i { purpose := c.purpose, stack := (g, st) :: c.stack, seg := .enter f } }
        | none =>
          let tid := s.nextId
          let s1 := { s with heap := s.heap ++ [⟨tid, g, st.bittorrent, none, st⟩],
                             map := aset s.map g tid, nextId := tid + 1 }
          finishCoro s1 i c tid
    | .build g st ptid =>
      let tid := s.nextId
      let s1 := { s with
        heap := s.heap ++ [⟨tid, g, st.bittorrent, if st.bittorrent then some ptid else none, st⟩],
        map := aset s.map g tid, nextId := tid + 1 }
      finishCoro s1 i c tid
    | .emitPending tid =>
      { s with events := s.events ++ [(keyOf c.purpose, tid)],
               coros := s.coros.set i { c with seg := .done } }

/-- External stimuli and scheduling choices: run a segment of computation
i; a direct getTask caller arrives; the server pushes a notification
(spawning a handler only while the push subscriptions are active, since
close disposed them otherwise); Aria2Monitor.close runs (disposing the
push subscriptions and clearing the interval). -/
inductive Act
  | run (i : Nat)
  | call (id : Nat) (gid : String)
  | notify (kind : String) (gid : String)
  | close
deriving DecidableEq

/-- One machine step. -/
def stepAct (w : World) (s : MachineState) : Act → MachineState
  | .run i => stepRun w s i
  | .call id g => { s with coros := s.coros ++ [⟨.caller id g, [], .enter g⟩] }
  | .notify kind g =>
    if s.subsActive then
      { s with coros := s.coros ++ [⟨.notifier (kind ++ ":" ++ g), [], .enter g⟩] }
    else s
  | .close => { s with subsActive := false, timerActive := false }

/-- Run a list of machine steps in order. -/
def execActs (w : World) (s : MachineState) : List Act → MachineState
  | [] => s
  | a :: rest => execActs w (stepAct w s a) rest

/-- Machine state right after Aria2Monitor.start: subscriptions and
timer active, nothing tracked, nothing suspended. -/
def startState : MachineState :=
  { map := [], heap := [], nextId := 0, queries := [], events := [],
    results := [], subsActive := true, timerActive := true, coros := [] }

end Naria2.Machine



namespace Naria2

/-- Keys of the registry association list in order. -/
def akeys : List (String × Nat) → List String
  | [] => []
  | (k, _) :: rest => k :: akeys rest

theorem alookup_aset (m : List (String × Nat)) (g g' : String) (t : Nat) :
    alookup (aset m g t) g' = if g' = g then some t else alookup m g' := by
  induction m with
  | nil =>
    rcases eq_or_ne g' g with h | h
    · subst h
      simp [aset, alookup]
    · simp [aset, alookup, h, Ne.symm h]
  | cons p rest ih =>
    obtain ⟨k, v⟩ := p
    rcases eq_or_ne k g with hk | hk
    · subst hk
      rcases eq_or_ne g' k with h | h
      · subst h
        simp [aset, alookup]
      · simp [aset, alookup, h, Ne.symm h]
    · rcases eq_or_ne g' k with h | h
      · subst h
        simp [aset, alookup, hk]
      · simp [aset, alookup, hk, Ne.symm h, ih]

theorem mem_akeys_aset (m : List (String × Nat)) (g g' : String) (t : Nat)
    (hm : g' ∈ akeys (aset m g t)) : g' ∈ akeys m ∨ g' = g := by
  induction m with
  | nil =>
    simp [aset, akeys] at hm
    exact Or.inr hm
  | cons p rest ih =>
    obtain ⟨k, v⟩ := p
    rcases eq_or_ne k g with hk | hk
    · subst hk
      simp [aset, akeys] at hm ⊢
      tauto
    · simp [aset, hk, akeys] at hm ⊢
      rcases hm with h | h
      · exact Or.inl (Or.inl h)
      · rcases ih h with h2 | h2
        · exact Or.inl (Or.inr h2)
        · exact Or.inr h2

theorem aset_akeys_nodup (m : List (String × Nat)) (g : String) (t : Nat)
    (hm : (akeys m).Nodup) : (akeys (aset m g t)).Nodup := by
  induction m with
  | nil => simp [aset, akeys]
  | cons p rest ih =>
    obtain ⟨k, v⟩ := p
    simp [akeys] at hm
    rcases eq_or_ne k g with hk | hk
    · subst hk
      simpa [aset, akeys] using hm
    · simp [aset, hk, akeys]
      refine ⟨?_, ih hm.2⟩
      intro hmem
      rcases mem_akeys_aset rest g k t hmem with h2 | h2
      · exact hm.1 h2
      · exact hk h2

theorem hlookup_append_left (h h2 : List TaskObj) (t : Nat) (o : TaskObj)
    (hl : hlookup h t = some o) : hlookup (h ++ h2) t = some o := by
  induction h with
  | nil => simp [hlookup] at hl
  | cons x rest ih =>
    by_cases hx : x.tid = t
    · simp only [hlookup, if_pos hx] at hl
      simp only [List.cons_append, hlookup, if_pos hx]
      exact hl
    · simp only [hlookup, if_neg hx] at hl
      simp only [List.cons_append, hlookup, if_neg hx]
      exact ih hl

theorem hlookup_append_none (h h2 : List TaskObj) (t : Nat)
    (hl : hlookup h t = none) : hlookup (h ++ h2) t = hlookup h2 t := by
  induction h with
  | nil => simp [hlookup]
  | cons x rest ih =>
    by_cases hx : x.tid = t
    · simp only [hlookup, if_pos hx] at hl
      cases hl
    · simp only [hlookup, if_neg hx] at hl
      simp only [List.cons_append, hlookup, if_neg hx]
      exact ih hl

theorem hlookup_none_of_bound (h : List TaskObj) (n : Nat)
    (hb : ∀ o ∈ h, o.tid < n) : hlookup h n = none := by
  induction h with
  | nil => simp [hlookup]
  | cons x rest ih =>
    have hx : x.tid < n := hb x (by simp)
    simp only [hlookup, if_neg (Nat.ne_of_lt hx)]
    exact ih (fun o ho => hb o (by simp [ho]))

theorem hlookup_mem (h : List TaskObj) (t : Nat) (o : TaskObj)
    (hl : hlookup h t = some o) : o ∈ h ∧ o.tid = t := by
  induction h with
  | nil => simp [hlookup] at hl
  | cons x rest ih =>
    by_cases hx : x.tid = t
    · simp only [hlookup, if_pos hx] at hl
      cases hl
      exact ⟨by simp, hx⟩
    · simp only [hlookup, if_neg hx] at hl
      obtain ⟨hmem, htid⟩ := ih hl
      exact ⟨by simp [hmem], htid⟩

theorem hlookup_hupdate_ne (h : List TaskObj) (t t' : Nat) (st : Aria2Status) (ts : Nat)
    (hne : t ≠ t') : hlookup (hupdate h t' st ts) t = hlookup h t := by
  induction h with
  | nil => rfl
  | cons x rest ih =>
    by_cases hx : x.tid = t'
    · have hxt : x.tid ≠ t := by
        rw [hx]
        exact Ne.symm hne
      simp only [hupdate, if_pos hx, hlookup]
      rw [if_neg (show ({ x with status := some st, timestamp := ts } : TaskObj).tid ≠ t from hxt),
          if_neg hxt]
      exact ih
    · simp only [hupdate, if_neg hx, hlookup]
      by_cases hxt : x.tid = t
      · rw [if_pos hxt, if_pos hxt]
      · rw [if_neg hxt, if_neg hxt]
        exact ih

theorem hlookup_hupdate_self (h : List TaskObj) (t : Nat) (st : Aria2Status) (ts : Nat)
    (o : TaskObj) (hl : hlookup h t = some o) :
    hlookup (hupdate h t st ts) t = some { o with status := some st, timestamp := ts } := by
  induction h with
  | nil => simp [hlookup] at hl
  | cons x rest ih =>
    by_cases hx : x.tid = t
    · simp only [hlookup, if_pos hx] at hl
      cases hl
      simp only [hupdate, if_pos hx, hlookup]
    · simp only [hlookup, if_neg hx] at hl
      simp only [hupdate, if_neg hx, hlookup, if_neg hx]
      exact ih hl

end Naria2


namespace Naria2

/-- Number of batched multicall entries in an RPC log. -/
def countMulticalls : List RpcCall → Nat
  | [] => 0
  | .multicall _ :: rest => countMulticalls rest + 1
  | _ :: rest => countMulticalls rest

theorem countMulticalls_append (l1 l2 : List RpcCall) :
    countMulticalls (l1 ++ l2) = countMulticalls l1 + countMulticalls l2 := by
  induction l1 with
  | nil => simp [countMulticalls]
  | cons c rest ih =>
    cases c <;> simp [countMulticalls, ih] <;> omega

/-- Well formed monitor state: every registry entry points at an
allocated instance carrying the same gid, and every allocated tid is
below the allocation counter. -/
def WF (s : MonitorState) : Prop :=
  (∀ g t, alookup s.map g = some t → ∃ obj, hlookup s.heap t = some obj ∧ obj.gid = g) ∧
  (∀ o ∈ s.heap, o.tid < s.nextId)

@[simp] theorem logCall_map (s : MonitorState) (c : RpcCall) : (logCall s c).map = s.map := rfl

@[simp] theorem logCall_heap (s : MonitorState) (c : RpcCall) : (logCall s c).heap = s.heap := rfl

@[simp] theorem logCall_nextId (s : MonitorState) (c : RpcCall) : (logCall s c).nextId = s.nextId := rfl

@[simp] theorem logCall_progressIds (s : MonitorState) (c : RpcCall) :
    (logCall s c).progressIds = s.progressIds := rfl

@[simp] theorem logCall_listeners (s : MonitorState) (c : RpcCall) :
    (logCall s c).listeners = s.listeners := rfl

@[simp] theorem logCall_events (s : MonitorState) (c : RpcCall) : (logCall s c).events = s.events := rfl

@[simp] theorem logCall_now (s : MonitorState) (c : RpcCall) : (logCall s c).now = s.now := rfl

@[simp] theorem logCall_log (s : MonitorState) (c : RpcCall) : (logCall s c).log = s.log ++ [c] := rfl

theorem getTask_hit (srv : Server) (fuel : Nat) (s : MonitorState) (g : String) (t : Nat)
    (h : alookup s.map g = some t) : getTask srv (fuel + 1) s g = (s, .ok t) := by
  simp [getTask, h]

theorem getTask_effects (srv : Server) : ∀ (fuel : Nat) (s : MonitorState) (g : String),
    (getTask srv fuel s g).1.progressIds = s.progressIds ∧
    (getTask srv fuel s g).1.listeners = s.listeners ∧
    (getTask srv fuel s g).1.events = s.events ∧
    countMulticalls (getTask srv fuel s g).1.log = countMulticalls s.log ∧
    s.nextId ≤ (getTask srv fuel s g).1.nextId ∧
    (∀ g' t, alookup s.map g' = some t → alookup (getTask srv fuel s g).1.map g' = some t) ∧
    (∀ t o, hlookup s.heap t = some o → hlookup (getTask srv fuel s g).1.heap t = some o) ∧
    ((akeys s.map).Nodup → (akeys (getTask srv fuel s g).1.map).Nodup) ∧
    ((∀ o ∈ s.heap, o.tid < s.nextId) →
      ∀ o ∈ (getTask srv fuel s g).1.heap, o.tid < (getTask srv fuel s g).1.nextId) := by
  intro fuel
  induction fuel with
  | zero =>
    intro s g
    exact ⟨rfl, rfl, rfl, rfl, Nat.le_refl _, fun _ _ h => h, fun _ _ h => h, fun h => h, fun h => h⟩
  | succ n ih =>
    intro s g
    cases halo : alookup s.map g with
    | some tid =>
      simp only [getTask, halo]
      repeat' apply And.intro
      all_goals
        first
          | trivial
          | exact Nat.le_refl _
          | exact fun _ _ h => h
          | exact fun h => h
    | none =>
      cases hts : srv.tellStatus g with
      | none =>
        simp only [getTask, halo, hts, logCall_map, logCall_heap, logCall_nextId,
          logCall_progressIds, logCall_listeners, logCall_events, logCall_log]
        repeat' apply And.intro
        all_goals
          first
            | trivial
            | exact Nat.le_refl _
            | exact fun _ _ h => h
            | exact fun h => h
            | simp [countMulticalls_append, countMulticalls]
      | some status =>
        cases hf : status.following with
        | none =>
          simp only [getTask, halo, hts, hf, logCall_map, logCall_heap, logCall_nextId,
            logCall_progressIds, logCall_listeners, logCall_events, logCall_log]
          refine ⟨by trivial, by trivial, by trivial, ?_, ?_, ?_, ?_, ?_, ?_⟩
          · simp [countMulticalls_append, countMulticalls]
          · exact Nat.le_succ _
          · intro g' t h
            have hne : g' ≠ g := fun he => by
              rw [he, halo] at h
              cases h
            rw [alookup_aset, if_neg hne]
            exact h
          · intro t o h
            exact hlookup_append_left _ _ _ _ h
          · intro h
            exact aset_akeys_nodup _ _ _ h
          · intro hb o ho
            simp only [List.mem_append, List.mem_singleton] at ho
            rcases ho with ho | ho
            · exact Nat.lt_succ_of_lt (hb o ho)
            · rw [ho]
              exact Nat.lt_succ_self _
        | some f =>
          have ihf := ih (logCall s (.tellStatus g)) f
          cases hrec : getTask srv n (logCall s (.tellStatus g)) f with
          | mk s2 r2 =>
            rw [hrec] at ihf
            simp only [logCall_map, logCall_heap, logCall_nextId, logCall_progressIds,
              logCall_listeners, logCall_events, logCall_log] at ihf
            obtain ⟨ih1, ih2, ih3, ih4, ih5, ih6, ih7, ih8, ih9⟩ := ihf
            cases r2 with
            | error e =>
              simp only [getTask, halo, hts, hf, hrec, logCall_map, logCall_heap,
                logCall_nextId, logCall_progressIds, logCall_listeners, logCall_events,
                logCall_log]
              refine ⟨by first | trivial | exact ih1, by first | trivial | exact ih2,
                by first | trivial | exact ih3, ?_, by first | trivial | exact ih5,
                by first | trivial | exact ih6, by first | trivial | exact ih7,
                by first | trivial | exact ih8, by first | trivial | exact ih9⟩
              rw [ih4]
              simp [countMulticalls_append, countMulticalls]
            | ok p =>
              simp only [getTask, halo, hts, hf, hrec, logCall_map, logCall_heap,
                logCall_nextId, logCall_progressIds, logCall_listeners, logCall_events,
                logCall_log]
              refine ⟨by first | trivial | exact ih1, by first | trivial | exact ih2,
                by first | trivial | exact ih3, ?_, ?_, ?_, ?_, ?_, ?_⟩
              · rw [ih4]
                simp [countMulticalls_append, countMulticalls]
              · exact Nat.le_trans ih5 (Nat.le_succ _)
              · intro g' t h
                have hne : g' ≠ g := fun he => by
                  rw [he, halo] at h
                  cases h
                rw [alookup_aset, if_neg hne]
                exact ih6 g' t h
              · intro t o h
                exact hlookup_append_left _ _ _ _ (ih7 t o h)
              · intro h
                exact aset_akeys_nodup _ _ _ (ih8 h)
              · intro hb o ho
                have hb2 := ih9 hb
                simp only [List.mem_append, List.mem_singleton] at ho
                rcases ho with ho | ho
                · exact Nat.lt_succ_of_lt (hb2 o ho)
                · rw [ho]
                  exact Nat.lt_succ_self _

end Naria2


namespace Naria2

theorem hlookup_snoc_self (h : List TaskObj) (obj : TaskObj)
    (hb : ∀ o ∈ h, o.tid < obj.tid) : hlookup (h ++ [obj]) obj.tid = some obj := by
  rw [hlookup_append_none _ _ _ (hlookup_none_of_bound h obj.tid hb)]
  simp [hlookup]

theorem getTask_ok_mem (srv : Server) : ∀ (fuel : Nat) (s : MonitorState) (g : String)
    (s' : MonitorState) (t : Nat), getTask srv fuel s g = (s', .ok t) →
    alookup s'.map g = some t := by
  intro fuel
  induction fuel with
  | zero =>
    intro s g s' t h
    simp [getTask] at h
  | succ n ih =>
    intro s g s' t h
    cases halo : alookup s.map g with
    | some tid =>
      rw [getTask_hit srv n s g tid halo] at h
      simp only [Prod.mk.injEq, Except.ok.injEq] at h
      obtain ⟨h1, h2⟩ := h
      rw [← h1, halo, h2]
    | none =>
      cases hts : srv.tellStatus g with
      | none =>
        simp only [getTask, halo, hts, logCall_map] at h
        simp at h
      | some status =>
        cases hf : status.following with
        | none =>
          simp only [getTask, halo, hts, hf, logCall_map, logCall_nextId] at h
          simp only [Prod.mk.injEq, Except.ok.injEq] at h
          obtain ⟨h1, h2⟩ := h
          rw [← h1, ← h2]
          simp [alookup_aset]
        | some f =>
          cases hrec : getTask srv n (logCall s (.tellStatus g)) f with
          | mk s2 r2 =>
            cases r2 with
            | error e =>
              simp only [getTask, halo, hts, hf, hrec, logCall_map] at h
              simp at h
            | ok p =>
              simp only [getTask, halo, hts, hf, hrec, logCall_map] at h
              simp only [Prod.mk.injEq, Except.ok.injEq] at h
              obtain ⟨h1, h2⟩ := h
              rw [← h1, ← h2]
              simp [alookup_aset]

theorem getTask_WF (srv : Server) : ∀ (fuel : Nat) (s : MonitorState) (g : String),
    WF s → WF (getTask srv fuel s g).1 := by
  intro fuel
  induction fuel with
  | zero =>
    intro s g hWF
    exact hWF
  | succ n ih =>
    intro s g hWF
    cases halo : alookup s.map g with
    | some tid =>
      rw [getTask_hit srv n s g tid halo]
      exact hWF
    | none =>
      cases hts : srv.tellStatus g with
      | none =>
        simp only [getTask, halo, hts]
        exact hWF
      | some status =>
        cases hf : status.following with
        | none =>
          simp only [getTask, halo, hts, hf, logCall_map, logCall_heap, logCall_nextId]
          constructor
          · intro g' t' h
            rw [alookup_aset] at h
            by_cases hg : g' = g
            · subst hg
              rw [if_pos rfl] at h
              injection h with h2
              subst h2
              exact ⟨_, hlookup_snoc_self _ _ hWF.2, rfl⟩
            · rw [if_neg hg] at h
              obtain ⟨obj, hobj, hgid⟩ := hWF.1 g' t' h
              exact ⟨obj, hlookup_append_left _ _ _ _ hobj, hgid⟩
          · intro o ho
            simp only [List.mem_append, List.mem_singleton] at ho
            rcases ho with ho | ho
            · exact Nat.lt_succ_of_lt (hWF.2 o ho)
            · rw [ho]
              exact Nat.lt_succ_self _
        | some f =>
          have hWF2 : WF (getTask srv n (logCall s (.tellStatus g)) f).1 :=
            ih (logCall s (.tellStatus g)) f hWF
          cases hrec : getTask srv n (logCall s (.tellStatus g)) f with
          | mk s2 r2 =>
            rw [hrec] at hWF2
            cases r2 with
            | error e =>
              simp only [getTask, halo, hts, hf, hrec, logCall_map]
              exact hWF2
            | ok p =>
              simp only [getTask, halo, hts, hf, hrec, logCall_map]
              constructor
              · intro g' t' h
                rw [alookup_aset] at h
                by_cases hg : g' = g
                · subst hg
                  rw [if_pos rfl] at h
                  injection h with h2
                  subst h2
                  exact ⟨_, hlookup_snoc_self _ _ hWF2.2, rfl⟩
                · rw [if_neg hg] at h
                  obtain ⟨obj, hobj, hgid⟩ := hWF2.1 g' t' h
                  exact ⟨obj, hlookup_append_left _ _ _ _ hobj, hgid⟩
              · intro o ho
                simp only [List.mem_append, List.mem_singleton] at ho
                rcases ho with ho | ho
                · exact Nat.lt_succ_of_lt (hWF2.2 o ho)
                · rw [ho]
                  exact Nat.lt_succ_self _

end Naria2


namespace Naria2

theorem applyActive_map_preserve (srv : Server) (fuel : Nat) :
    ∀ (l : List Aria2Status) (s : MonitorState) (g : String) (t : Nat),
    alookup s.map g = some t → alookup (applyActive srv fuel l s).1.map g = some t := by
  intro l
  induction l with
  | nil =>
    intro s g t h
    exact h
  | cons status rest ih =>
    intro s g t h
    cases hgt : getTask srv fuel s status.gid with
    | mk s1 r1 =>
      have h1 : alookup s1.map g = some t := by
        have h2 := (getTask_effects srv fuel s status.gid).2.2.2.2.2.1 g t h
        rw [hgt] at h2
        exact h2
      cases r1 with
      | error e =>
        simp only [applyActive, hgt]
        exact h1
      | ok tid =>
        simp only [applyActive, hgt]
        by_cases hfresh : (alookup s.map status.gid).isNone = true
        · rw [if_pos hfresh]
          cases hrest : applyActive srv fuel rest s1 with
          | mk s3 r3 =>
            have h3 := ih s1 g t h1
            rw [hrest] at h3
            cases r3 <;> exact h3
        · rw [if_neg hfresh]
          cases hrest : applyActive srv fuel rest
              { s1 with heap := hupdate s1.heap tid status s1.now, now := s1.now + 1 } with
          | mk s3 r3 =>
            have h3 := ih { s1 with heap := hupdate s1.heap tid status s1.now, now := s1.now + 1 } g t h1
            rw [hrest] at h3
            cases r3 <;> exact h3

theorem applyActive_nodup (srv : Server) (fuel : Nat) :
    ∀ (l : List Aria2Status) (s : MonitorState),
    (akeys s.map).Nodup → (akeys (applyActive srv fuel l s).1.map).Nodup := by
  intro l
  induction l with
  | nil =>
    intro s h
    exact h
  | cons status rest ih =>
    intro s h
    cases hgt : getTask srv fuel s status.gid with
    | mk s1 r1 =>
      have h1 : (akeys s1.map).Nodup := by
        have h2 := (getTask_effects srv fuel s status.gid).2.2.2.2.2.2.2.1 h
        rw [hgt] at h2
        exact h2
      cases r1 with
      | error e =>
        simp only [applyActive, hgt]
        exact h1
      | ok tid =>
        simp only [applyActive, hgt]
        by_cases hfresh : (alookup s.map status.gid).isNone = true
        · rw [if_pos hfresh]
          cases hrest : applyActive srv fuel rest s1 with
          | mk s3 r3 =>
            have h3 := ih s1 h1
            rw [hrest] at h3
            cases r3 <;> exact h3
        · rw [if_neg hfresh]
          cases hrest : applyActive srv fuel rest
              { s1 with heap := hupdate s1.heap tid status s1.now, now := s1.now + 1 } with
          | mk s3 r3 =>
            have h3 := ih { s1 with heap := hupdate s1.heap tid status s1.now, now := s1.now + 1 } h1
            rw [hrest] at h3
            cases r3 <;> exact h3

theorem applyProgress_map (s : MonitorState) (tid : Nat) (st : Aria2Status) (fresh : Bool) :
    (applyProgress s tid st fresh).map = s.map := by
  cases fresh <;> rfl

theorem applyProgress_log (s : MonitorState) (tid : Nat) (st : Aria2Status) (fresh : Bool) :
    (applyProgress s tid st fresh).log = s.log := by
  cases fresh <;> rfl

theorem applyProgress_progressIds (s : MonitorState) (tid : Nat) (st : Aria2Status) (fresh : Bool) :
    (applyProgress s tid st fresh).progressIds = s.progressIds := by
  cases fresh <;> rfl

theorem applyProgress_listeners (s : MonitorState) (tid : Nat) (st : Aria2Status) (fresh : Bool) :
    (applyProgress s tid st fresh).listeners = s.listeners := by
  cases fresh <;> rfl

theorem applyProgress_nextId (s : MonitorState) (tid : Nat) (st : Aria2Status) (fresh : Bool) :
    (applyProgress s tid st fresh).nextId = s.nextId := by
  cases fresh <;> rfl

theorem applyProgress_events (s : MonitorState) (tid : Nat) (st : Aria2Status) (fresh : Bool) :
    (applyProgress s tid st fresh).events = s.events ++ [("progress:" ++ st.gid, tid)] := by
  cases fresh <;> rfl

theorem applyProgress_now_le (s : MonitorState) (tid : Nat) (st : Aria2Status) (fresh : Bool) :
    s.now ≤ (applyProgress s tid st fresh).now := by
  cases fresh
  · exact Nat.le_succ _
  · exact Nat.le_refl _

theorem applyProgress_heap_false (s : MonitorState) (tid : Nat) (st : Aria2Status) :
    (applyProgress s tid st false).heap = hupdate s.heap tid st s.now := rfl

theorem processStatuses_frame (srv : Server) (fuel : Nat) :
    ∀ (resp : List (Option Aria2Status)) (s : MonitorState),
    countMulticalls (processStatuses srv fuel resp s).1.log = countMulticalls s.log ∧
    (processStatuses srv fuel resp s).1.progressIds = s.progressIds ∧
    (processStatuses srv fuel resp s).1.listeners = s.listeners := by
  intro resp
  induction resp with
  | nil =>
    intro s
    exact ⟨rfl, rfl, rfl⟩
  | cons item rest ih =>
    intro s
    cases item with
    | none =>
      exact ih s
    | some status =>
      cases hgt : getTask srv fuel s status.gid with
      | mk s1 r1 =>
        have he := getTask_effects srv fuel s status.gid
        rw [hgt] at he
        cases r1 with
        | error e =>
          simp only [processStatuses, hgt]
          exact ⟨he.2.2.2.1, he.1, he.2.1⟩
        | ok tid =>
          simp only [processStatuses, hgt]
          refine ⟨?_, ?_, ?_⟩
          · rw [(ih _).1, applyProgress_log]
            exact he.2.2.2.1
          · rw [(ih _).2.1, applyProgress_progressIds]
            exact he.1
          · rw [(ih _).2.2, applyProgress_listeners]
            exact he.2.1

theorem onDownloadProgress_frame (srv : Server) (fuel : Nat) (s : MonitorState) :
    (onDownloadProgress srv fuel s).1.progressIds = s.progressIds ∧
    (onDownloadProgress srv fuel s).1.listeners = s.listeners ∧
    countMulticalls (onDownloadProgress srv fuel s).1.log =
      countMulticalls s.log + (if s.progressIds = [] then 0 else 1) := by
  by_cases hid : s.progressIds = []
  · simp only [onDownloadProgress, if_pos hid]
    exact ⟨by trivial, by trivial, by simp⟩
  · simp only [onDownloadProgress, if_neg hid]
    cases hmc : srv.multicallResp s.progressIds with
    | none =>
      simp only []
      refine ⟨rfl, rfl, ?_⟩
      simp [logCall_log, countMulticalls_append, countMulticalls, if_neg hid]
    | some resp =>
      have hf := processStatuses_frame srv fuel resp (logCall s (.multicall s.progressIds))
      refine ⟨?_, ?_, ?_⟩
      · rw [hf.2.1]
        rfl
      · rw [hf.2.2]
        rfl
      · rw [hf.1]
        simp [logCall_log, countMulticalls_append, countMulticalls, if_neg hid]

theorem intervalTick_ms (srv : Server) (fuel : Nat) (ls : LoopState) :
    (intervalTick srv fuel ls).ms = (onDownloadProgress srv fuel ls.ms).1 := by
  unfold intervalTick
  cases ho : onDownloadProgress srv fuel ls.ms with
  | mk s1 r1 =>
    cases r1 <;> rfl

theorem runTicks_multicall_count (fuel : Nat) :
    ∀ (srvs : List Server) (ls : LoopState), ls.ms.progressIds ≠ [] →
    countMulticalls (runTicks fuel srvs ls).ms.log =
      countMulticalls ls.ms.log + srvs.length ∧
    (runTicks fuel srvs ls).ms.progressIds = ls.ms.progressIds := by
  intro srvs
  induction srvs with
  | nil =>
    intro ls hne
    exact ⟨by simp [runTicks], rfl⟩
  | cons srv rest ih =>
    intro ls hne
    have hframe := onDownloadProgress_frame srv fuel ls.ms
    have hms := intervalTick_ms srv fuel ls
    have hne2 : (intervalTick srv fuel ls).ms.progressIds = ls.ms.progressIds := by
      rw [hms, hframe.1]
    have hih := ih (intervalTick srv fuel ls) (by
      rw [hne2]
      exact hne)
    constructor
    · rw [show runTicks fuel (srv :: rest) ls = runTicks fuel rest (intervalTick srv fuel ls) from rfl,
        hih.1, hms, hframe.2.2, if_neg hne]
      simp [List.length_cons]
      omega
    · rw [show runTicks fuel (srv :: rest) ls = runTicks fuel rest (intervalTick srv fuel ls) from rfl,
        hih.2, hne2]

end Naria2

namespace Naria2

/-- The registry maps distinct gids to distinct instances. -/
def mapInj (s : MonitorState) : Prop :=
  ∀ g1 g2 t, alookup s.map g1 = some t → alookup s.map g2 = some t → g1 = g2

theorem hupdate_mem (h : List TaskObj) (t : Nat) (st : Aria2Status) (ts : Nat) :
    ∀ o ∈ hupdate h t st ts, ∃ o2 ∈ h, o.tid = o2.tid := by
  induction h with
  | nil =>
    intro o ho
    simp [hupdate] at ho
  | cons x rest ih =>
    intro o ho
    simp only [hupdate] at ho
    rcases List.mem_cons.mp ho with ho | ho
    · by_cases hx : x.tid = t
      · rw [if_pos hx] at ho
        refine ⟨x, by simp, ?_⟩
        rw [ho]
      · rw [if_neg hx] at ho
        refine ⟨x, by simp, ?_⟩
        rw [ho]
    · obtain ⟨o2, ho2, htid⟩ := ih o ho
      exact ⟨o2, by simp [ho2], htid⟩

theorem WF_applyProgress (s : MonitorState) (tid : Nat) (st : Aria2Status) (fresh : Bool)
    (hWF : WF s) : WF (applyProgress s tid st fresh) := by
  cases fresh
  · refine ⟨?_, ?_⟩
    · intro g t h
      rw [applyProgress_map] at h
      obtain ⟨o, ho, hgid⟩ := hWF.1 g t h
      rw [show (applyProgress s tid st false).heap = hupdate s.heap tid st s.now from rfl]
      by_cases htt : t = tid
      · subst htt
        exact ⟨_, hlookup_hupdate_self _ _ _ _ _ ho, hgid⟩
      · rw [hlookup_hupdate_ne _ _ _ _ _ htt]
        exact ⟨o, ho, hgid⟩
    · intro o ho
      rw [show (applyProgress s tid st false).heap = hupdate s.heap tid st s.now from rfl] at ho
      obtain ⟨o2, ho2, htid⟩ := hupdate_mem s.heap tid st s.now o ho
      rw [applyProgress_nextId, htid]
      exact hWF.2 o2 ho2
  · exact hWF

theorem processStatuses_tracked (srv : Server) (fuel : Nat) :
    ∀ (resp : List (Option Aria2Status)) (s : MonitorState),
    WF s → mapInj s →
    (∀ st, some st ∈ resp → (alookup s.map st.gid).isSome = true) →
    ((resp.filterMap (fun x => x)).map Aria2Status.gid).Nodup →
    (processStatuses srv (fuel + 1) resp s).2 = none ∧
    (processStatuses srv (fuel + 1) resp s).1.map = s.map ∧
    (processStatuses srv (fuel + 1) resp s).1.log = s.log ∧
    s.now ≤ (processStatuses srv (fuel + 1) resp s).1.now ∧
    (processStatuses srv (fuel + 1) resp s).1.events.map Prod.fst =
      s.events.map Prod.fst ++
        (resp.filterMap (fun x => x)).map (fun st => "progress:" ++ st.gid) ∧
    (∀ t, (∀ st, some st ∈ resp → alookup s.map st.gid ≠ some t) →
      hlookup (processStatuses srv (fuel + 1) resp s).1.heap t = hlookup s.heap t) ∧
    (∀ st, some st ∈ resp → ∃ t obj, alookup s.map st.gid = some t ∧
      hlookup (processStatuses srv (fuel + 1) resp s).1.heap t = some obj ∧
      obj.status = some st ∧ s.now ≤ obj.timestamp) := by
  intro resp
  induction resp with
  | nil =>
    intro s hWF hinj hin hnd
    refine ⟨rfl, rfl, rfl, Nat.le_refl _, by simp [processStatuses], ?_, ?_⟩
    · intro t ht
      rfl
    · intro st hst
      simp at hst
  | cons item rest ih =>
    cases item with
    | none =>
      intro s hWF hinj hin hnd
      have hih := ih s hWF hinj (fun st hst => hin st (by simp [hst])) (by simpa using hnd)
      refine ⟨hih.1, hih.2.1, hih.2.2.1, hih.2.2.2.1, ?_, ?_, ?_⟩
      · rw [show processStatuses srv (fuel + 1) (none :: rest) s
            = processStatuses srv (fuel + 1) rest s from rfl, hih.2.2.2.2.1]
        simp
      · intro t ht
        exact hih.2.2.2.2.2.1 t (fun st hst => ht st (by simp [hst]))
      · intro st hst
        rcases List.mem_cons.mp hst with h | h
        · cases h
        · exact hih.2.2.2.2.2.2 st h
    | some st0 =>
      intro s hWF hinj hin hnd
      have hmem0 : (alookup s.map st0.gid).isSome = true := hin st0 (by simp)
      obtain ⟨t0, ht0⟩ := Option.isSome_iff_exists.mp hmem0
      have hhit := getTask_hit srv fuel s st0.gid t0 ht0
      have hfr : (alookup s.map st0.gid).isNone = false := by
        rw [ht0]
        rfl
      have hnd2 : ((rest.filterMap (fun x => x)).map Aria2Status.gid).Nodup := by
        simp only [List.filterMap_cons] at hnd
        simp at hnd
        exact hnd.2
      have hnot : ∀ x : Aria2Status, some x ∈ rest → ¬x.gid = st0.gid := by
        simp only [List.filterMap_cons] at hnd
        simp at hnd
        exact hnd.1
      have hWF2 : WF (applyProgress s t0 st0 false) := WF_applyProgress s t0 st0 false hWF
      have hinj2 : mapInj (applyProgress s t0 st0 false) := by
        intro g1 g2 t h1 h2
        rw [applyProgress_map] at h1 h2
        exact hinj g1 g2 t h1 h2
      have hin2 : ∀ st, some st ∈ rest →
          (alookup (applyProgress s t0 st0 false).map st.gid).isSome = true := by
        intro st hst
        rw [applyProgress_map]
        exact hin st (by simp [hst])
      have hih := ih (applyProgress s t0 st0 false) hWF2 hinj2 hin2 hnd2
      have hcond0 : ∀ st, some st ∈ rest →
          alookup (applyProgress s t0 st0 false).map st.gid ≠ some t0 := by
        intro st hst heq
        rw [applyProgress_map] at heq
        have hgid : st.gid = st0.gid := hinj st.gid st0.gid t0 heq ht0
        exact hnot st hst hgid
      obtain ⟨o, ho, hgido⟩ := hWF.1 st0.gid t0 ht0
      have hupd : hlookup (applyProgress s t0 st0 false).heap t0 =
          some { o with status := some st0, timestamp := s.now } := by
        rw [show (applyProgress s t0 st0 false).heap = hupdate s.heap t0 st0 s.now from rfl]
        exact hlookup_hupdate_self _ _ _ _ _ ho
      simp only [processStatuses, hhit, hfr]
      refine ⟨hih.1, ?_, ?_, ?_, ?_, ?_, ?_⟩
      · rw [hih.2.1, applyProgress_map]
      · rw [hih.2.2.1, applyProgress_log]
      · exact Nat.le_trans (applyProgress_now_le s t0 st0 false) hih.2.2.2.1
      · rw [hih.2.2.2.2.1, applyProgress_events]
        simp
      · intro t ht
        have hne : t0 ≠ t := by
          intro he
          exact ht st0 (by simp) (by rw [← he]; exact ht0)
        have hfr2 := hih.2.2.2.2.2.1 t (by
          intro st hst heq
          rw [applyProgress_map] at heq
          exact ht st (by simp [hst]) heq)
        rw [hfr2, show (applyProgress s t0 st0 false).heap = hupdate s.heap t0 st0 s.now from rfl,
          hlookup_hupdate_ne _ _ _ _ _ (Ne.symm hne)]
      · intro st hst
        rcases List.mem_cons.mp hst with h | h
        · have hsteq : st = st0 := by
            injection h
          subst hsteq
          refine ⟨t0, { o with status := some st, timestamp := s.now }, ht0, ?_, rfl, Nat.le_refl _⟩
          rw [hih.2.2.2.2.2.1 t0 hcond0]
          exact hupd
        · obtain ⟨t, obj, halook, hh, hstat, hts⟩ := hih.2.2.2.2.2.2 st h
          rw [applyProgress_map] at halook
          refine ⟨t, obj, halook, hh, hstat, ?_⟩
          exact Nat.le_trans (applyProgress_now_le s t0 st0 false) hts

end Naria2

namespace Naria2.Machine

/-- Shape invariant of one suspended computation in a world whose
statuses carry no following gid: the frame stack is empty, a resumed
status is the one the oracle answers, no build segment exists, and a
direct caller only ever works on its own gid. -/
def coroOK (w : World) (c : Coro) : Prop :=
  c.stack = [] ∧
  (∀ g st, c.seg = .gotStatus g st → st = w g) ∧
  (∀ g st p, c.seg ≠ .build g st p) ∧
  (∀ id g0, c.purpose = .caller id g0 →
    (∀ g, c.seg = .enter g → g = g0) ∧ (∀ g st, c.seg = .gotStatus g st → g = g0))

/-- Machine invariant in a world without following gids: every suspended
computation is well shaped and every delivered result is the current
registry entry of its gid. -/
def inv1 (w : World) (s : MachineState) : Prop :=
  (∀ c ∈ s.coros, coroOK w c) ∧
  (∀ id g t, (id, g, t) ∈ s.results → alookup s.map g = some t)

theorem coroOK_done (w : World) (p : Purpose) : coroOK w ⟨p, [], .done⟩ := by
  refine ⟨rfl, ?_, ?_, ?_⟩
  · intro g st h
    cases h
  · intro g st q h
    cases h
  · intro id g0 hp
    constructor
    · intro g h
      cases h
    · intro g st h
      cases h

theorem coroOK_emit (w : World) (p : Purpose) (t : Nat)
    (hp : ∀ id g0, p ≠ .caller id g0) : coroOK w ⟨p, [], .emitPending t⟩ := by
  refine ⟨rfl, ?_, ?_, ?_⟩
  · intro g st h
    cases h
  · intro g st q h
    cases h
  · intro id g0 hpc
    exact absurd hpc (hp id g0)

theorem coroOK_enter_caller (w : World) (id : Nat) (g : String) :
    coroOK w ⟨.caller id g, [], .enter g⟩ := by
  refine ⟨rfl, ?_, ?_, ?_⟩
  · intro g' st h
    cases h
  · intro g' st p h
    cases h
  · intro id0 g0 hp
    injection hp with h1 h2
    subst h2
    constructor
    · intro g' h
      injection h with h3
      exact h3.symm
    · intro g' st h
      cases h

theorem coroOK_enter_notifier (w : World) (key : String) (g : String) :
    coroOK w ⟨.notifier key, [], .enter g⟩ := by
  refine ⟨rfl, ?_, ?_, ?_⟩
  · intro g' st h
    cases h
  · intro g' st p h
    cases h
  · intro id0 g0 hp
    cases hp

theorem coroOK_gotStatus (w : World) (p : Purpose) (g : String)
    (hcall : ∀ id g0, p = .caller id g0 → g = g0) :
    coroOK w ⟨p, [], .gotStatus g (w g)⟩ := by
  refine ⟨rfl, ?_, ?_, ?_⟩
  · intro g' st h
    injection h with h1 h2
    subst h1
    exact h2.symm
  · intro g' st q h
    cases h
  · intro id0 g0 hp
    constructor
    · intro g' h
      cases h
    · intro g' st h
      injection h with h1 h2
      rw [← h1]
      exact hcall id0 g0 hp

end Naria2.Machine

namespace Naria2.Machine

theorem inv1_step (w : World) (hw : ∀ g, (w g).following = none)
    (s : MachineState) (a : Act) (hinv : inv1 w s) : inv1 w (stepAct w s a) := by
  obtain ⟨hcoro, hres⟩ := hinv
  cases a with
  | close =>
    exact ⟨hcoro, hres⟩
  | call id g =>
    refine ⟨?_, hres⟩
    intro c hc
    rcases List.mem_append.mp hc with hc | hc
    · exact hcoro c hc
    · rw [List.mem_singleton] at hc
      subst hc
      exact coroOK_enter_caller w id g
  | notify kind g =>
    by_cases hs : s.subsActive = true
    · simp only [stepAct, if_pos hs]
      refine ⟨?_, hres⟩
      intro c hc
      rcases List.mem_append.mp hc with hc | hc
      · exact hcoro c hc
      · rw [List.mem_singleton] at hc
        subst hc
        exact coroOK_enter_notifier w _ g
    · simp only [stepAct, if_neg hs]
      exact ⟨hcoro, hres⟩
  | run i =>
    cases hci : s.coros.get? i with
    | none =>
      simp only [stepAct, stepRun, hci]
      exact ⟨hcoro, hres⟩
    | some c =>
      have hcok := hcoro c (List.get?_mem hci)
      obtain ⟨cp, cstack, cseg⟩ := c
      obtain ⟨hstack, hgot, hnobuild, hcall⟩ := hcok
      have hstack2 : cstack = [] := hstack
      subst hstack2
      cases cseg with
      | done =>
        simp only [stepAct, stepRun, hci]
        exact ⟨hcoro, hres⟩
      | enter g =>
        cases halo : alookup s.map g with
        | some tid =>
          cases cp with
          | caller id g0 =>
            have hg : g = g0 := (hcall id g0 rfl).1 g rfl
            simp only [stepAct, stepRun, hci, halo, finishCoro]
            refine ⟨?_, ?_⟩
            · intro c2 hc2
              rcases List.mem_or_eq_of_mem_set hc2 with hc2 | hc2
              · exact hcoro c2 hc2
              · subst hc2
                exact coroOK_done w _
            · intro id2 g2 t2 h2
              rcases List.mem_append.mp h2 with h2 | h2
              · exact hres id2 g2 t2 h2
              · rw [List.mem_singleton] at h2
                simp only [Prod.mk.injEq] at h2
                obtain ⟨h2a, h2b, h2c⟩ := h2
                subst h2b
                subst h2c
                rw [← hg]
                exact halo
          | notifier key =>
            simp only [stepAct, stepRun, hci, halo, finishCoro]
            refine ⟨?_, hres⟩
            intro c2 hc2
            rcases List.mem_or_eq_of_mem_set hc2 with hc2 | hc2
            · exact hcoro c2 hc2
            · subst hc2
              exact coroOK_emit w _ tid (fun id g0 h => by cases h)
        | none =>
          simp only [stepAct, stepRun, hci, halo]
          refine ⟨?_, hres⟩
          intro c2 hc2
          rcases List.mem_or_eq_of_mem_set hc2 with hc2 | hc2
          · exact hcoro c2 hc2
          · subst hc2
            refine coroOK_gotStatus w cp g ?_
            intro id g0 hp
            exact (hcall id g0 hp).1 g rfl
      | gotStatus g st =>
        have hst : st = w g := hgot g st rfl
        subst hst
        cases halo : alookup s.map g with
        | some tid =>
          cases cp with
          | caller id g0 =>
            have hg : g = g0 := (hcall id g0 rfl).2 g (w g) rfl
            simp only [stepAct, stepRun, hci, halo, finishCoro]
            refine ⟨?_, ?_⟩
            · intro c2 hc2
              rcases List.mem_or_eq_of_mem_set hc2 with hc2 | hc2
              · exact hcoro c2 hc2
              · subst hc2
                exact coroOK_done w _
            · intro id2 g2 t2 h2
              rcases List.mem_append.mp h2 with h2 | h2
              · exact hres id2 g2 t2 h2
              · rw [List.mem_singleton] at h2
                simp only [Prod.mk.injEq] at h2
                obtain ⟨h2a, h2b, h2c⟩ := h2
                subst h2b
                subst h2c
                rw [← hg]
                exact halo
          | notifier key =>
            simp only [stepAct, stepRun, hci, halo, finishCoro]
            refine ⟨?_, hres⟩
            intro c2 hc2
            rcases List.mem_or_eq_of_mem_set hc2 with hc2 | hc2
            · exact hcoro c2 hc2
            · subst hc2
              exact coroOK_emit w _ tid (fun id g0 h => by cases h)
        | none =>
          cases cp with
          | caller id g0 =>
            have hg : g = g0 := (hcall id g0 rfl).2 g (w g) rfl
            simp only [stepAct, stepRun, hci, halo, hw g, finishCoro]
            refine ⟨?_, ?_⟩
            · intro c2 hc2
              rcases List.mem_or_eq_of_mem_set hc2 with hc2 | hc2
              · exact hcoro c2 hc2
              · subst hc2
                exact coroOK_done w _
            · intro id2 g2 t2 h2
              rcases List.mem_append.mp h2 with h2 | h2
              · have h3 := hres id2 g2 t2 h2
                have hne : g2 ≠ g := by
                  intro he
                  rw [he, halo] at h3
                  cases h3
                rw [alookup_aset, if_neg hne]
                exact h3
              · rw [List.mem_singleton] at h2
                simp only [Prod.mk.injEq] at h2
                obtain ⟨h2a, h2b, h2c⟩ := h2
                subst h2b
                subst h2c
                rw [← hg, alookup_aset, if_pos rfl]
          | notifier key =>
            simp only [stepAct, stepRun, hci, halo, hw g, finishCoro]
            refine ⟨?_, ?_⟩
            · intro c2 hc2
              rcases List.mem_or_eq_of_mem_set hc2 with hc2 | hc2
              · exact hcoro c2 hc2
              · subst hc2
                exact coroOK_emit w _ s.nextId (fun id g0 h => by cases h)
            · intro id2 g2 t2 h2
              have h3 := hres id2 g2 t2 h2
              have hne : g2 ≠ g := by
                intro he
                rw [he, halo] at h3
                cases h3
              rw [alookup_aset, if_neg hne]
              exact h3
      | build g st p =>
        exact absurd rfl (hnobuild g st p)
      | emitPending tid =>
        simp only [stepAct, stepRun, hci]
        refine ⟨?_, hres⟩
        intro c2 hc2
        rcases List.mem_or_eq_of_mem_set hc2 with hc2 | hc2
        · exact hcoro c2 hc2
        · subst hc2
          exact coroOK_done w _

theorem inv1_exec (w : World) (hw : ∀ g, (w g).following = none) :
    ∀ (acts : List Act) (s : MachineState), inv1 w s → inv1 w (execActs w s acts) := by
  intro acts
  induction acts with
  | nil =>
    intro s h
    exact h
  | cons a rest ih =>
    intro s h
    exact ih (stepAct w s a) (inv1_step w hw s a h)

theorem inv1_start (w : World) : inv1 w startState := by
  constructor
  · intro c hc
    simp [startState] at hc
  · intro id g t h
    simp [startState] at h

end Naria2.Machine

namespace Naria2.Machine

/-- State of a monitor after close with no notification handler still in
flight: the push subscriptions are disposed, every notification handler
has finished, and no direct caller is about to emit (direct callers
never emit). -/
def inv2 (s : MachineState) : Prop :=
  s.subsActive = false ∧
  (∀ c ∈ s.coros, (∀ key, c.purpose = .notifier key → c.seg = .done) ∧
    (∀ id g0 t, c.purpose = .caller id g0 → c.seg ≠ .emitPending t))

theorem inv2_finish (s : MachineState) (i : Nat) (id : Nat) (g0 : String)
    (cstack : List (String × RawStatus)) (cseg : Seg) (tid : Nat)
    (hsub : s.subsActive = false)
    (hcond : ∀ c ∈ s.coros, (∀ key, c.purpose = .notifier key → c.seg = .done) ∧
      (∀ id2 g2 t, c.purpose = .caller id2 g2 → c.seg ≠ .emitPending t)) :
    inv2 (finishCoro s i ⟨.caller id g0, cstack, cseg⟩ tid) ∧
    (finishCoro s i ⟨.caller id g0, cstack, cseg⟩ tid).events = s.events := by
  cases cstack with
  | nil =>
    simp only [finishCoro]
    refine ⟨⟨hsub, ?_⟩, by trivial⟩
    intro c2 hc2
    rcases List.mem_or_eq_of_mem_set hc2 with hc2 | hc2
    · exact hcond c2 hc2
    · subst hc2
      constructor
      · intro key hp
        cases hp
      · intro id2 g2 t hp h
        cases h
  | cons fr rest2 =>
    obtain ⟨g2, st2⟩ := fr
    simp only [finishCoro]
    refine ⟨⟨hsub, ?_⟩, by trivial⟩
    intro c2 hc2
    rcases List.mem_or_eq_of_mem_set hc2 with hc2 | hc2
    · exact hcond c2 hc2
    · subst hc2
      constructor
      · intro key hp
        cases hp
      · intro id2 g2 t hp h
        cases h

theorem inv2_step (w : World) (s : MachineState) (a : Act) (hinv : inv2 s) :
    inv2 (stepAct w s a) ∧ (stepAct w s a).events = s.events := by
  obtain ⟨hsub, hcond⟩ := hinv
  cases a with
  | close =>
    exact ⟨⟨rfl, hcond⟩, by trivial⟩
  | call id g =>
    refine ⟨⟨hsub, ?_⟩, by trivial⟩
    intro c hc
    rcases List.mem_append.mp hc with hc | hc
    · exact hcond c hc
    · rw [List.mem_singleton] at hc
      subst hc
      constructor
      · intro key hp
        cases hp
      · intro id2 g2 t hp h
        cases h
  | notify kind g =>
    have hsf : (s.subsActive = true) = False := by
      rw [hsub]
      simp
    simp only [stepAct, hsf, if_false]
    exact ⟨⟨hsub, hcond⟩, by trivial⟩
  | run i =>
    cases hci : s.coros.get? i with
    | none =>
      simp only [stepAct, stepRun, hci]
      exact ⟨⟨hsub, hcond⟩, by trivial⟩
    | some c =>
      have hcok := hcond c (List.get?_mem hci)
      obtain ⟨cp, cstack, cseg⟩ := c
      obtain ⟨hnotif, hnoemit⟩ := hcok
      cases cp with
      | notifier key =>
        have hdone : Seg.done = cseg := (hnotif key rfl).symm
        cases hdone
        simp only [stepAct, stepRun, hci]
        exact ⟨⟨hsub, hcond⟩, by trivial⟩
      | caller id g0 =>
        cases cseg with
        | done =>
          simp only [stepAct, stepRun, hci]
          exact ⟨⟨hsub, hcond⟩, by trivial⟩
        | emitPending t =>
          exact absurd rfl (hnoemit id g0 t rfl)
        | enter g =>
          cases halo : alookup s.map g with
          | some tid =>
            simp only [stepAct, stepRun, hci, halo]
            exact inv2_finish s i id g0 cstack (.enter g) tid hsub hcond
          | none =>
            simp only [stepAct, stepRun, hci, halo]
            refine ⟨⟨hsub, ?_⟩, by trivial⟩
            intro c2 hc2
            rcases List.mem_or_eq_of_mem_set hc2 with hc2 | hc2
            · exact hcond c2 hc2
            · subst hc2
              constructor
              · intro key hp
                cases hp
              · intro id2 g2 t hp h
                cases h
        | gotStatus g st =>
          cases halo : alookup s.map g with
          | some tid =>
            simp only [stepAct, stepRun, hci, halo]
            exact inv2_finish s i id g0 cstack (.gotStatus g st) tid hsub hcond
          | none =>
            cases hfol : st.following with
            | some f =>
              simp only [stepAct, stepRun, hci, halo, hfol]
              refine ⟨⟨hsub, ?_⟩, by trivial⟩
              intro c2 hc2
              rcases List.mem_or_eq_of_mem_set hc2 with hc2 | hc2
              · exact hcond c2 hc2
              · subst hc2
                constructor
                · intro key hp
                  cases hp
                · intro id2 g2 t hp h
                  cases h
            | none =>
              simp only [stepAct, stepRun, hci, halo, hfol]
              exact inv2_finish _ i id g0 cstack (.gotStatus g st) s.nextId hsub hcond
        | build g st p =>
          simp only [stepAct, stepRun, hci]
          exact inv2_finish _ i id g0 cstack (.build g st p) s.nextId hsub hcond

theorem inv2_exec (w : World) : ∀ (acts : List Act) (s : MachineState), inv2 s →
    inv2 (execActs w s acts) ∧ (execActs w s acts).events = s.events := by
  intro acts
  induction acts with
  | nil =>
    intro s h
    exact ⟨h, rfl⟩
  | cons a rest ih =>
    intro s h
    obtain ⟨h1, h2⟩ := inv2_step w s a h
    obtain ⟨h3, h4⟩ := ih (stepAct w s a) h1
    refine ⟨h3, ?_⟩
    show (execActs w (stepAct w s a) rest).events = s.events
    rw [h4, h2]

end Naria2.Machine

namespace Naria2

/-- Occurrences of a gid in a list. -/
def countStr (g : String) : List String → Nat
  | [] => 0
  | x :: rest => (if x = g then 1 else 0) + countStr g rest

theorem countStr_append (g : String) (l1 l2 : List String) :
    countStr g (l1 ++ l2) = countStr g l1 + countStr g l2 := by
  induction l1 with
  | nil => simp [countStr]
  | cons x rest ih =>
    simp [countStr, ih]
    omega

theorem countStr_eq_zero (g : String) (l : List String) (h : g ∉ l) : countStr g l = 0 := by
  induction l with
  | nil => rfl
  | cons x rest ih =>
    simp at h
    have hx : ¬x = g := fun he => h.1 he.symm
    simp [countStr, ih h.2, hx]

theorem mem_addId (ids : List String) (x g : String) (h : g ∈ ids) : g ∈ addId ids x := by
  unfold addId
  by_cases hx : x ∈ ids
  · rw [if_pos hx]
    exact h
  · rw [if_neg hx]
    simp [h]

theorem isProgressKey_append (g : String) : isProgressKey ("progress:" ++ g) = true := by
  simp [isProgressKey, String.data_append]

theorem progressKeyGid_append (g : String) : progressKeyGid ("progress:" ++ g) = g := by
  simp [progressKeyGid, String.data_append]

theorem onEvent_progressIds (s : MonitorState) (key : String) (handler : Nat) :
    (onEvent s key handler).progressIds =
      if isProgressKey key then addId s.progressIds (progressKeyGid key)
      else s.progressIds := by
  unfold onEvent
  by_cases hk : isProgressKey key = true
  · rw [if_pos hk, if_pos hk]
  · rw [if_neg hk, if_neg hk]

theorem onEvent_frame (s : MonitorState) (key : String) (handler : Nat) :
    (onEvent s key handler).map = s.map ∧ (onEvent s key handler).heap = s.heap ∧
    (onEvent s key handler).nextId = s.nextId ∧ (onEvent s key handler).log = s.log ∧
    (onEvent s key handler).events = s.events ∧ (onEvent s key handler).now = s.now := by
  unfold onEvent
  by_cases hk : isProgressKey key = true
  · rw [if_pos hk]
    exact ⟨rfl, rfl, rfl, rfl, rfl, rfl⟩
  · rw [if_neg hk]
    exact ⟨rfl, rfl, rfl, rfl, rfl, rfl⟩

theorem offEvent_frame (s : MonitorState) (key : String) (handler : Option Nat) :
    (offEvent s key handler).progressIds = s.progressIds ∧
    (offEvent s key handler).map = s.map ∧ (offEvent s key handler).heap = s.heap ∧
    (offEvent s key handler).nextId = s.nextId ∧ (offEvent s key handler).log = s.log ∧
    (offEvent s key handler).events = s.events ∧ (offEvent s key handler).now = s.now := by
  cases handler <;> exact ⟨rfl, rfl, rfl, rfl, rfl, rfl, rfl⟩

theorem applyActive_frame (srv : Server) (fuel : Nat) :
    ∀ (l : List Aria2Status) (s : MonitorState),
    (applyActive srv fuel l s).1.progressIds = s.progressIds ∧
    (applyActive srv fuel l s).1.listeners = s.listeners := by
  intro l
  induction l with
  | nil =>
    intro s
    exact ⟨rfl, rfl⟩
  | cons status rest ih =>
    intro s
    cases hgt : getTask srv fuel s status.gid with
    | mk s1 r1 =>
      have he := getTask_effects srv fuel s status.gid
      rw [hgt] at he
      cases r1 with
      | error e =>
        simp only [applyActive, hgt]
        exact ⟨he.1, he.2.1⟩
      | ok tid =>
        simp only [applyActive, hgt]
        by_cases hfresh : (alookup s.map status.gid).isNone = true
        · rw [if_pos hfresh]
          cases hrest : applyActive srv fuel rest s1 with
          | mk s3 r3 =>
            have h3 := ih s1
            rw [hrest] at h3
            cases r3 with
            | error e =>
              exact ⟨by rw [show (s3, (Except.error e : Except MonErr (List Nat))).1.progressIds
                  = s3.progressIds from rfl, h3.1, he.1],
                by rw [show (s3, (Except.error e : Except MonErr (List Nat))).1.listeners
                  = s3.listeners from rfl, h3.2, he.2.1]⟩
            | ok tids =>
              exact ⟨by rw [show ((s3, Except.ok (tid :: tids)) :
                    MonitorState × Except MonErr (List Nat)).1.progressIds
                  = s3.progressIds from rfl, h3.1, he.1],
                by rw [show ((s3, Except.ok (tid :: tids)) :
                    MonitorState × Except MonErr (List Nat)).1.listeners
                  = s3.listeners from rfl, h3.2, he.2.1]⟩
        · rw [if_neg hfresh]
          cases hrest : applyActive srv fuel rest
              { s1 with heap := hupdate s1.heap tid status s1.now, now := s1.now + 1 } with
          | mk s3 r3 =>
            have h3 := ih { s1 with heap := hupdate s1.heap tid status s1.now, now := s1.now + 1 }
            rw [hrest] at h3
            cases r3 with
            | error e =>
              refine ⟨?_, ?_⟩
              · rw [show (s3, (Except.error e : Except MonErr (List Nat))).1.progressIds
                  = s3.progressIds from rfl, h3.1]
                exact he.1
              · rw [show (s3, (Except.error e : Except MonErr (List Nat))).1.listeners
                  = s3.listeners from rfl, h3.2]
                exact he.2.1
            | ok tids =>
              refine ⟨?_, ?_⟩
              · rw [show ((s3, Except.ok (tid :: tids)) :
                    MonitorState × Except MonErr (List Nat)).1.progressIds
                  = s3.progressIds from rfl, h3.1]
                exact he.1
              · rw [show ((s3, Except.ok (tid :: tids)) :
                    MonitorState × Except MonErr (List Nat)).1.listeners
                  = s3.listeners from rfl, h3.2]
                exact he.2.1

theorem WF_emptyMonitor : WF emptyMonitor := by
  constructor
  · intro g t h
    simp [emptyMonitor, alookup] at h
  · intro o ho
    simp [emptyMonitor] at ho

theorem mapInj_emptyMonitor : mapInj emptyMonitor := by
  intro g1 g2 t h1 h2
  simp [emptyMonitor, alookup] at h1

end Naria2

namespace Naria2.Machine

/-- World in which every status is a plain download with no following gid. -/
def flatWorld : World := fun _ => ⟨false, none⟩

/-- World of the following scenario: the status of t1 carries bittorrent
metadata and follows t0. -/
def chainWorld : World := fun g => if g = "t1" then ⟨true, some "t0"⟩ else ⟨true, none⟩

/-- Schedule of two overlapping getTask callers for the unseen gid g:
both run their entry segment, and so both miss the registry and issue a
tellStatus query, before either resumes. -/
def overlapActs : List Act := [.call 1 "g", .call 2 "g", .run 0, .run 1, .run 0, .run 1]

/-- Claim C1 is false on the code: under the interleaving in which both
callers check the registry before either status query resolves (a real
event loop execution), two concurrent getTask calls for the unseen gid
g issue two tellStatus queries, not one.  Deduplication happens only at
the re-check after the await, which is why both callers still receive
instance 0. -/
theorem c1_counterexample :
    (execActs flatWorld startState overlapActs).queries = ["g", "g"] ∧
    (execActs flatWorld startState overlapActs).queries.length ≠ 1 ∧
    (execActs flatWorld startState overlapActs).results = [(1, "g", 0), (2, "g", 0)] := by
  refine ⟨by decide, by decide, by decide⟩

/-- Claim C1 (amended): when the fetched statuses carry no following
gid, all concurrent getTask callers for one gid resolve to the
identical Task instance under every schedule, the deduplication being
achieved by re-checking the registry after awaiting the status query;
but each caller that began before construction completed issues its own
underlying status query, so the overlapping two caller schedule
observes two tellStatus queries for the gid rather than one. -/
theorem c1_amended (w : World) (hw : ∀ g, (w g).following = none) (acts : List Act) :
    (∀ id1 id2 g t1 t2,
      (id1, g, t1) ∈ (execActs w startState acts).results →
      (id2, g, t2) ∈ (execActs w startState acts).results → t1 = t2) ∧
    (execActs flatWorld startState overlapActs).queries = ["g", "g"] := by
  constructor
  · intro id1 id2 g t1 t2 h1 h2
    have hinv := inv1_exec w hw acts startState (inv1_start w)
    have e1 := hinv.2 id1 g t1 h1
    have e2 := hinv.2 id2 g t2 h2
    rw [e1] at e2
    injection e2
  · decide

/-- Witness for the amended claim C1 at the concrete overlap schedule:
both callers are recorded with instance 0 and the theorem equates the
two delivered instances. -/
theorem c1_amended_witness :
    (1, "g", 0) ∈ (execActs flatWorld startState overlapActs).results ∧
    (2, "g", 0) ∈ (execActs flatWorld startState overlapActs).results ∧
    (0 : Nat) = 0 :=
  ⟨by decide, by decide,
    (c1_amended flatWorld (fun _ => rfl) overlapActs).1 1 2 "g" 0 0 (by decide) (by decide)⟩

/-- Claim C2 is false on the code: a notification handler that was
already awaiting its status query when close ran still emits its event
after close returned, because close only disposes the push
subscriptions and the timer and does not guard work in flight.  At the
moment close returns no event has fired and the subscriptions are
disposed; resuming the in flight handler then fires the start event. -/
theorem c2_counterexample :
    (execActs flatWorld startState [.notify "start" "g", .run 0, .close]).events = [] ∧
    (execActs flatWorld startState [.notify "start" "g", .run 0, .close]).subsActive = false ∧
    (execActs flatWorld
      (execActs flatWorld startState [.notify "start" "g", .run 0, .close])
      [.run 0, .run 0]).events = [("start:g", 0)] := by
  refine ⟨by decide, by decide, by decide⟩

/-- Claim C2 (amended): close disposes the push subscriptions and the
timer and is idempotent; once the monitor is closed and no notification
handler is still in flight, no later stimulus (notification, new
caller, scheduling step) produces any emission.  Work already in flight
at the moment of close, however, may still emit after close returns, as
the counterexample shows. -/
theorem c2_amended (w : World) (s : MachineState) (acts : List Act) (hq : inv2 s) :
    (execActs w s acts).events = s.events ∧
    (∀ s2 : MachineState, stepAct w (stepAct w s2 .close) .close = stepAct w s2 .close) :=
  ⟨(inv2_exec w acts s hq).2, fun _ => rfl⟩

/-- Witness for the amended claim C2: a freshly closed monitor ignores a
later notification entirely. -/
theorem c2_amended_witness :
    (execActs flatWorld (stepAct flatWorld startState .close)
      [.notify "start" "g", .run 0, .run 0]).events
      = (stepAct flatWorld startState .close).events :=
  (c2_amended flatWorld (stepAct flatWorld startState .close)
    [.notify "start" "g", .run 0, .run 0]
    ⟨rfl, by intro c hc; cases hc⟩).1

/-- Schedule of the following race: two concurrent getTask callers for
the unseen torrent gid t1; both pass the post query re-check before
either resolves the following gid t0, so each constructs its own
Torrent for t1 and the second insertion overwrites the first. -/
def raceActs : List Act :=
  [.call 1 "t1", .call 2 "t1", .run 0, .run 1, .run 0, .run 0, .run 1, .run 1,
   .run 0, .run 0, .run 1, .run 1]

/-- Claim C3 is false on the code: after the race schedule the two
callers hold two distinct Task instances (allocation numbers 1 and 2)
for the single gid t1, and the registry entry for t1 was overwritten to
the later instance; at most one instance per gid does not hold under
concurrency when a following hop sits between the re-check and the
registry insertion. -/
theorem c3_counterexample :
    (execActs chainWorld startState raceActs).results = [(1, "t1", 1), (2, "t1", 2)] ∧
    alookup (execActs chainWorld startState raceActs).map "t1" = some 2 := by
  refine ⟨by decide, by decide⟩

end Naria2.Machine

namespace Naria2

/-- Server whose active list reports downloads a and b. -/
def srvAB : Server :=
  { tellStatus := fun g => some ⟨g, false, none⟩,
    tellActive := [⟨"a", false, none⟩, ⟨"b", false, none⟩],
    multicallResp := fun _ => none,
    addUri := fun _ => .error 0 }

/-- Server whose active list reports downloads a and c. -/
def srvAC : Server :=
  { tellStatus := fun g => some ⟨g, false, none⟩,
    tellActive := [⟨"a", false, none⟩, ⟨"c", false, none⟩],
    multicallResp := fun _ => none,
    addUri := fun _ => .error 0 }

/-- Claim C3 (amended): sequentially the registry never loses or
replaces an entry: getTask and listActive preserve every existing entry
unchanged and keep the registry keys duplicate free, and the listActive
scenario (statuses for a and b, then for a and c) ends with exactly the
three entries a, b, c, the entry for a still holding its original
instance.  Under concurrency, however, two distinct instances for one
gid can be constructed when a following hop sits between the re-check
and the insertion, as the counterexample shows. -/
theorem c3_amended :
    (∀ (srv : Server) (fuel : Nat) (s : MonitorState) (g g' : String) (t : Nat),
      alookup s.map g' = some t → alookup (getTask srv fuel s g).1.map g' = some t) ∧
    (∀ (srv : Server) (fuel : Nat) (s : MonitorState) (g : String) (t : Nat),
      alookup s.map g = some t → alookup (listActive srv fuel s).1.map g = some t) ∧
    (∀ (srv : Server) (fuel : Nat) (s : MonitorState) (g : String),
      (akeys s.map).Nodup → (akeys (getTask srv fuel s g).1.map).Nodup) ∧
    (∀ (srv : Server) (fuel : Nat) (s : MonitorState),
      (akeys s.map).Nodup → (akeys (listActive srv fuel s).1.map).Nodup) ∧
    (listActive srvAC 2 (listActive srvAB 2 emptyMonitor).1).1.map
      = [("a", 0), ("b", 1), ("c", 2)] ∧
    alookup (listActive srvAB 2 emptyMonitor).1.map "a" = some 0 := by
  refine ⟨?_, ?_, ?_, ?_, by decide, by decide⟩
  · intro srv fuel s g g' t h
    exact (getTask_effects srv fuel s g).2.2.2.2.2.1 g' t h
  · intro srv fuel s g t h
    exact applyActive_map_preserve srv fuel srv.tellActive (logCall s .tellActive) g t h
  · intro srv fuel s g h
    exact (getTask_effects srv fuel s g).2.2.2.2.2.2.2.1 h
  · intro srv fuel s h
    exact applyActive_nodup srv fuel srv.tellActive (logCall s .tellActive) h

/-- Witness for the amended claim C3: the entry for a survives a later
getTask for an unrelated gid. -/
theorem c3_amended_witness :
    alookup (getTask srvAB 1 (listActive srvAB 2 emptyMonitor).1 "z").1.map "a" = some 0 :=
  c3_amended.1 srvAB 1 (listActive srvAB 2 emptyMonitor).1 "z" "a" 0 (by decide)

/-- Claim C4 (confirmed): when getTask constructs an entry for an
unseen gid from a successfully fetched status (whose following gid, if
any, is not the gid itself), the constructed instance is a Torrent
exactly when the status carries bittorrent metadata; with bittorrent
metadata and a following gid the parent task is resolved first and the
stored parent reference is the very instance a subsequent getTask for
the following gid returns; without bittorrent metadata a plain Task
with no parent reference is constructed; and the entry is in the
registry when getTask returns. -/
theorem c4_construction (srv : Server) (fuel : Nat) (s : MonitorState) (gid : String)
    (st : Aria2Status) (s' : MonitorState) (tid : Nat)
    (hWF : WF s)
    (hmiss : alookup s.map gid = none)
    (hst : srv.tellStatus gid = some st)
    (hself : st.following ≠ some gid)
    (hok : getTask srv (fuel + 1) s gid = (s', .ok tid)) :
    alookup s'.map gid = some tid ∧
    ∃ obj, hlookup s'.heap tid = some obj ∧ obj.gid = gid ∧
      obj.isTorrent = st.bittorrent ∧ obj.status = some st ∧
      (st.bittorrent = false → obj.parent = none) ∧
      (∀ f, st.following = some f → st.bittorrent = true →
        ∃ ptid, obj.parent = some ptid ∧ alookup s'.map f = some ptid ∧
          ∀ k, getTask srv (k + 1) s' f = (s', .ok ptid)) := by
  refine ⟨getTask_ok_mem srv (fuel + 1) s gid s' tid hok, ?_⟩
  cases hf : st.following with
  | none =>
    simp only [getTask, hmiss, hst, hf, logCall_map, logCall_heap, logCall_nextId] at hok
    simp only [Prod.mk.injEq, Except.ok.injEq] at hok
    obtain ⟨h1, h2⟩ := hok
    rw [← h1, ← h2]
    refine ⟨_, hlookup_snoc_self _ _ hWF.2, rfl, rfl, rfl, ?_, ?_⟩
    · intro hb
      simp [hb]
    · intro f hf2
      cases hf2
  | some f =>
    cases hrec : getTask srv fuel (logCall s (.tellStatus gid)) f with
    | mk s2 r2 =>
      cases r2 with
      | error e =>
        simp only [getTask, hmiss, hst, hf, hrec, logCall_map] at hok
        simp at hok
      | ok p =>
        simp only [getTask, hmiss, hst, hf, hrec, logCall_map] at hok
        simp only [Prod.mk.injEq, Except.ok.injEq] at hok
        obtain ⟨h1, h2⟩ := hok
        have hWF2 := getTask_WF srv fuel (logCall s (.tellStatus gid)) f hWF
        rw [hrec] at hWF2
        have hmemf := getTask_ok_mem srv fuel (logCall s (.tellStatus gid)) f s2 p hrec
        have hfg : f ≠ gid := by
          intro he
          apply hself
          rw [← he]
          exact hf
        rw [← h1, ← h2]
        refine ⟨_, hlookup_snoc_self _ _ hWF2.2, rfl, rfl, rfl, ?_, ?_⟩
        · intro hb
          simp [hb]
        · intro f2 hf2 hbt
          injection hf2 with hff
          subst hff
          refine ⟨p, by simp [hbt], ?_, ?_⟩
          · rw [show alookup (aset s2.map gid s2.nextId) f
                = if f = gid then some s2.nextId else alookup s2.map f from alookup_aset _ _ _ _,
              if_neg hfg]
            exact hmemf
          · intro k
            apply getTask_hit
            rw [show alookup (aset s2.map gid s2.nextId) f
                = if f = gid then some s2.nextId else alookup s2.map f from alookup_aset _ _ _ _,
              if_neg hfg]
            exact hmemf

/-- Server of the torrent scenario: the status of t1 carries bittorrent
metadata and follows t0; every other status is a torrent without a
following gid. -/
def srvT : Server :=
  { tellStatus := fun g =>
      if g = "t1" then some ⟨"t1", true, some "t0"⟩ else some ⟨g, true, none⟩,
    tellActive := [], multicallResp := fun _ => none, addUri := fun _ => .error 0 }

/-- Witness for claim C4 at the t1 follows t0 scenario: after the
construction the registry holds t1 as instance 1. -/
theorem c4_construction_witness :
    alookup (getTask srvT 2 emptyMonitor "t1").1.map "t1" = some 1 :=
  (c4_construction srvT 1 emptyMonitor "t1" ⟨"t1", true, some "t0"⟩
    (getTask srvT 2 emptyMonitor "t1").1 1 WF_emptyMonitor rfl (by decide) (by decide)
    rfl).1

/-- Claim C5 (confirmed): if the direct status query issued by getTask
for an unseen gid fails, the error propagates to the caller and the
registry is left unchanged: no entry is inserted or modified, the only
trace being the attempted query in the RPC log. -/
theorem c5_query_error (srv : Server) (fuel : Nat) (s : MonitorState) (gid : String)
    (hmiss : alookup s.map gid = none)
    (hfail : srv.tellStatus gid = none) :
    getTask srv (fuel + 1) s gid
      = (logCall s (.tellStatus gid), .error (.queryFailed gid)) ∧
    (getTask srv (fuel + 1) s gid).1.map = s.map ∧
    (getTask srv (fuel + 1) s gid).1.heap = s.heap := by
  have h : getTask srv (fuel + 1) s gid
      = (logCall s (.tellStatus gid), .error (.queryFailed gid)) := by
    simp only [getTask, hmiss, hfail]
  refine ⟨h, ?_, ?_⟩
  · rw [h]
    rfl
  · rw [h]
    rfl

/-- Server on which every direct status query fails. -/
def srvNone : Server :=
  { tellStatus := fun _ => none, tellActive := [],
    multicallResp := fun _ => none, addUri := fun _ => .error 0 }

/-- Witness for claim C5. -/
theorem c5_query_error_witness :
    getTask srvNone 1 emptyMonitor "g"
      = (logCall emptyMonitor (.tellStatus "g"), .error (.queryFailed "g")) ∧
    (getTask srvNone 1 emptyMonitor "g").1.map = emptyMonitor.map ∧
    (getTask srvNone 1 emptyMonitor "g").1.heap = emptyMonitor.heap :=
  c5_query_error srvNone 0 emptyMonitor "g" rfl rfl

end Naria2

namespace Naria2

/-- Claim C6 (confirmed): a poll tick with an empty progress
subscription set makes no RPC call and changes nothing; a tick with a
nonempty set issues exactly one batched multicall whose parameter list
is the subscription set, and for every returned status carrying a gid
of a tracked task it overwrites the status and timestamp of the
matching registry entry and emits exactly one progress event for that
gid; and registering a progress handler for the same gid twice yields
exactly one entry for that gid in the subscription set, hence in the
batched call parameter list. -/
theorem c6_tick :
    (∀ (srv : Server) (fuel : Nat) (s : MonitorState), s.progressIds = [] →
      onDownloadProgress srv fuel s = (s, none)) ∧
    (∀ (srv : Server) (fuel : Nat) (s : MonitorState) (resp : List (Option Aria2Status)),
      WF s → mapInj s → s.progressIds ≠ [] →
      srv.multicallResp s.progressIds = some resp →
      (∀ st, some st ∈ resp → (alookup s.map st.gid).isSome = true) →
      ((resp.filterMap (fun x => x)).map Aria2Status.gid).Nodup →
      (onDownloadProgress srv (fuel + 1) s).2 = none ∧
      (onDownloadProgress srv (fuel + 1) s).1.log = s.log ++ [.multicall s.progressIds] ∧
      (onDownloadProgress srv (fuel + 1) s).1.events.map Prod.fst =
        s.events.map Prod.fst ++
          (resp.filterMap (fun x => x)).map (fun st => "progress:" ++ st.gid) ∧
      (∀ st, some st ∈ resp → ∃ t obj, alookup s.map st.gid = some t ∧
        hlookup (onDownloadProgress srv (fuel + 1) s).1.heap t = some obj ∧
        obj.status = some st ∧ s.now ≤ obj.timestamp)) ∧
    (∀ (s : MonitorState) (g : String) (h1 h2 : Nat), g ∉ s.progressIds →
      countStr g (onEvent (onEvent s ("progress:" ++ g) h1) ("progress:" ++ g) h2).progressIds
        = 1) := by
  refine ⟨?_, ?_, ?_⟩
  · intro srv fuel s hid
    simp only [onDownloadProgress, if_pos hid]
  · intro srv fuel s resp hWF hinj hne hresp hin hnd
    have htr := processStatuses_tracked srv fuel resp
      (logCall s (.multicall s.progressIds)) hWF hinj hin hnd
    simp only [onDownloadProgress, if_neg hne, hresp]
    refine ⟨htr.1, ?_, ?_, ?_⟩
    · rw [htr.2.2.1]
      rfl
    · rw [htr.2.2.2.2.1]
      rfl
    · intro st hst
      obtain ⟨t, obj, ha, hh, hs2, hts⟩ := htr.2.2.2.2.2.2 st hst
      exact ⟨t, obj, ha, hh, hs2, hts⟩
  · intro s g h1 h2 hg
    have hk1 := isProgressKey_append g
    have hk2 := progressKeyGid_append g
    have e1 : (onEvent s ("progress:" ++ g) h1).progressIds = s.progressIds ++ [g] := by
      rw [onEvent_progressIds, if_pos hk1, hk2, addId, if_neg hg]
    have hmem : g ∈ (onEvent s ("progress:" ++ g) h1).progressIds := by
      rw [e1]
      simp
    have e2 : (onEvent (onEvent s ("progress:" ++ g) h1) ("progress:" ++ g) h2).progressIds
        = s.progressIds ++ [g] := by
      rw [onEvent_progressIds, if_pos hk1, hk2, addId, if_pos hmem, e1]
    rw [e2, countStr_append, countStr_eq_zero g s.progressIds hg]
    simp [countStr]

/-- Monitor state subscribed to progress for the gid abc with nothing
tracked yet. -/
def subbedAbc : MonitorState := { emptyMonitor with progressIds := ["abc"] }

/-- Server answering every batched multicall with an empty result list. -/
def srvEmptyMc : Server :=
  { tellStatus := fun _ => none, tellActive := [],
    multicallResp := fun _ => some [], addUri := fun _ => .error 0 }

/-- Witness for claim C6: a tick over an empty multicall response on a
monitor subscribed to abc logs exactly the one batched call. -/
theorem c6_tick_witness :
    (onDownloadProgress srvEmptyMc 1 subbedAbc).2 = none ∧
    (onDownloadProgress srvEmptyMc 1 subbedAbc).1.log
      = subbedAbc.log ++ [.multicall subbedAbc.progressIds] := by
  have h := c6_tick.2.1 srvEmptyMc 0 subbedAbc []
    ⟨fun g t h => by simp [subbedAbc, emptyMonitor, alookup] at h,
      fun o ho => by simp [subbedAbc, emptyMonitor] at ho⟩
    (fun g1 g2 t hh1 hh2 => by simp [subbedAbc, emptyMonitor, alookup] at hh1)
    (by decide) rfl (fun st hst => by cases hst) (by simp)
  exact ⟨h.1, h.2.1⟩

/-- Server on which every batched multicall is rejected. -/
def srvFail : Server :=
  { tellStatus := fun _ => none, tellActive := [],
    multicallResp := fun _ => none, addUri := fun _ => .error 0 }

/-- Monitor state subscribed to progress for gid g. -/
def subbedMonitor : MonitorState := { emptyMonitor with progressIds := ["g"] }

/-- Claim C7 is false on the code as stated: the error of a failing
tick does not reach any caller and does not stop the interval, but
nothing catches it, so after one failing tick the set of unhandled
rejections is nonempty, contradicting the clause that a tick error does
not leak as an unhandled error. -/
theorem c7_counterexample :
    (intervalTick srvFail 1 ⟨subbedMonitor, []⟩).unhandled = [.multicallFailed] ∧
    (intervalTick srvFail 1 ⟨subbedMonitor, []⟩).unhandled ≠ [] := by
  refine ⟨by decide, by decide⟩

/-- Claim C7 (amended): an error during one polling cycle does not stop
the recurring timer (running any further sequence of ticks still issues
exactly one batched query per tick while the subscription set is
nonempty, failing ticks included) and is not delivered to any caller
(the interval driver is total and merely records the rejection), but it
is caught nowhere: the rejection of the interval callback escapes as an
unhandled promise rejection. -/
theorem c7_amended :
    (∀ (fuel : Nat) (srvs : List Server) (ls : LoopState), ls.ms.progressIds ≠ [] →
      countMulticalls (runTicks fuel srvs ls).ms.log
        = countMulticalls ls.ms.log + srvs.length) ∧
    (∀ (srv : Server) (fuel : Nat) (ls : LoopState) (s1 : MonitorState) (e : MonErr),
      onDownloadProgress srv fuel ls.ms = (s1, some e) →
      intervalTick srv fuel ls = ⟨s1, ls.unhandled ++ [e]⟩) := by
  constructor
  · intro fuel srvs ls hne
    exact (runTicks_multicall_count fuel srvs ls hne).1
  · intro srv fuel ls s1 e h
    simp only [intervalTick, h]

/-- Witness for the amended claim C7: two ticks on a failing server
still issue two batched calls. -/
theorem c7_amended_witness :
    countMulticalls (runTicks 1 [srvFail, srvFail] ⟨subbedMonitor, []⟩).ms.log
      = countMulticalls (⟨subbedMonitor, []⟩ : LoopState).ms.log + 2 :=
  c7_amended.1 1 [srvFail, srvFail] ⟨subbedMonitor, []⟩ (by decide)

/-- Claim C8 (confirmed): a failed add download call makes downloadUri
rethrow an error carrying the underlying cause with the registry
untouched (only the RPC log records the attempt); a successful one
returns the task handle for the gid the call yielded, whose instance
carries that gid, and a subsequent getTask for that gid returns the
identical instance from the registry without touching the state. -/
theorem c8_downloadUri (srv : Server) (fuel : Nat) (s : MonitorState) (uris : List String)
    (hWF : WF s) :
    (∀ cause, srv.addUri uris = .error cause →
      downloadUri srv fuel s uris = (logCall s (.addUri uris), .error (.submission cause))) ∧
    (∀ gid tid s', srv.addUri uris = .ok gid →
      downloadUri srv fuel s uris = (s', .ok tid) →
      (∃ obj, hlookup s'.heap tid = some obj ∧ obj.gid = gid) ∧
      (∀ k, getTask srv (k + 1) s' gid = (s', .ok tid))) := by
  constructor
  · intro cause herr
    simp only [downloadUri, herr]
  · intro gid tid s' hok hdl
    simp only [downloadUri, hok, watchStatus] at hdl
    cases hgt : getTask srv fuel (logCall s (.addUri uris)) gid with
    | mk s2 r2 =>
      rw [hgt] at hdl
      cases r2 with
      | error e =>
        simp at hdl
      | ok t2 =>
        simp only [Prod.mk.injEq, Except.ok.injEq] at hdl
        obtain ⟨h1, h2⟩ := hdl
        subst h1
        subst h2
        have hWF2 := getTask_WF srv fuel (logCall s (.addUri uris)) gid hWF
        rw [hgt] at hWF2
        have hmem := getTask_ok_mem srv fuel (logCall s (.addUri uris)) gid s2 t2 hgt
        obtain ⟨obj, hobj, hgid⟩ := hWF2.1 gid t2 hmem
        exact ⟨⟨obj, hobj, hgid⟩, fun k => getTask_hit srv k s2 gid t2 hmem⟩

/-- Server on which submission succeeds with gid gid1 and every status
query answers a plain download status. -/
def srvAdd : Server :=
  { tellStatus := fun g => some ⟨g, false, none⟩, tellActive := [],
    multicallResp := fun _ => none, addUri := fun _ => .ok "gid1" }

/-- Witness for claim C8 on a successful submission: a subsequent
getTask for the submitted gid returns the identical instance without
changing the state. -/
theorem c8_downloadUri_witness :
    getTask srvAdd 1 (downloadUri srvAdd 1 emptyMonitor ["http"]).1 "gid1"
      = ((downloadUri srvAdd 1 emptyMonitor ["http"]).1, .ok 0) :=
  ((c8_downloadUri srvAdd 1 emptyMonitor ["http"] WF_emptyMonitor).2 "gid1" 0
    (downloadUri srvAdd 1 emptyMonitor ["http"]).1 rfl rfl).2 0

end Naria2

namespace Naria2

/-- Claim C9 (confirmed): the progress subscription set only grows: on
adds the gid of a progress key and preserves every gid already present,
off never touches the set, and neither getTask, listActive, poll ticks
nor downloadUri ever change it; moreover on and off change nothing
outside the listener registrations and the subscription set. -/
theorem c9_subscription_growth :
    (∀ (s : MonitorState) (key : String) (h : Nat) (g : String),
      g ∈ s.progressIds → g ∈ (onEvent s key h).progressIds) ∧
    (∀ (s : MonitorState) (g : String) (h : Nat),
      (onEvent s ("progress:" ++ g) h).progressIds = addId s.progressIds g) ∧
    (∀ (s : MonitorState) (key : String) (h : Option Nat),
      (offEvent s key h).progressIds = s.progressIds) ∧
    (∀ (s : MonitorState) (key : String) (h : Nat),
      (onEvent s key h).map = s.map ∧ (onEvent s key h).heap = s.heap ∧
      (onEvent s key h).nextId = s.nextId ∧ (onEvent s key h).log = s.log ∧
      (onEvent s key h).events = s.events ∧ (onEvent s key h).now = s.now) ∧
    (∀ (s : MonitorState) (key : String) (h : Option Nat),
      (offEvent s key h).map = s.map ∧ (offEvent s key h).heap = s.heap ∧
      (offEvent s key h).nextId = s.nextId ∧ (offEvent s key h).log = s.log ∧
      (offEvent s key h).events = s.events ∧ (offEvent s key h).now = s.now) ∧
    (∀ (srv : Server) (fuel : Nat) (s : MonitorState) (g : String),
      (getTask srv fuel s g).1.progressIds = s.progressIds) ∧
    (∀ (srv : Server) (fuel : Nat) (s : MonitorState),
      (listActive srv fuel s).1.progressIds = s.progressIds) ∧
    (∀ (srv : Server) (fuel : Nat) (s : MonitorState),
      (onDownloadProgress srv fuel s).1.progressIds = s.progressIds) ∧
    (∀ (srv : Server) (fuel : Nat) (s : MonitorState) (uris : List String),
      (downloadUri srv fuel s uris).1.progressIds = s.progressIds) := by
  refine ⟨?_, ?_, ?_, ?_, ?_, ?_, ?_, ?_, ?_⟩
  · intro s key h g hg
    rw [onEvent_progressIds]
    by_cases hk : isProgressKey key = true
    · rw [if_pos hk]
      exact mem_addId _ _ _ hg
    · rw [if_neg hk]
      exact hg
  · intro s g h
    rw [onEvent_progressIds, if_pos (isProgressKey_append g), progressKeyGid_append]
  · intro s key h
    exact (offEvent_frame s key h).1
  · intro s key h
    exact onEvent_frame s key h
  · intro s key h
    exact (offEvent_frame s key h).2
  · intro srv fuel s g
    exact (getTask_effects srv fuel s g).1
  · intro srv fuel s
    exact (applyActive_frame srv fuel srv.tellActive (logCall s .tellActive)).1
  · intro srv fuel s
    exact (onDownloadProgress_frame srv fuel s).1
  · intro srv fuel s uris
    unfold downloadUri
    cases ha : srv.addUri uris with
    | error c => rfl
    | ok gid =>
      simp only [watchStatus]
      cases hgt : getTask srv fuel (logCall s (.addUri uris)) gid with
      | mk s2 r2 =>
        have he := getTask_effects srv fuel (logCall s (.addUri uris)) gid
        rw [hgt] at he
        cases r2 with
        | ok t => exact he.1
        | error e => exact he.1

/-- Witness for claim C9: an existing subscription survives the
registration of an unrelated handler. -/
theorem c9_subscription_growth_witness :
    "abc" ∈ (onEvent subbedAbc "start:zzz" 0).progressIds :=
  c9_subscription_growth.1 subbedAbc "start:zzz" 0 "abc" (by decide)

/-- Claim C10 (confirmed): an entry of the batched multicall response
that carries no gid (such as a per method error object) is skipped by
the tick loop: it produces no event and no registry access, and the
remaining entries are processed exactly as if the gid-less entry were
absent. -/
theorem c10_skip_no_gid (srv : Server) (fuel : Nat) :
    (∀ (rest : List (Option Aria2Status)) (s : MonitorState),
      processStatuses srv fuel (none :: rest) s = processStatuses srv fuel rest s) ∧
    (∀ (resp : List (Option Aria2Status)) (s : MonitorState),
      processStatuses srv fuel resp s =
        processStatuses srv fuel ((resp.filterMap (fun x => x)).map some) s) := by
  constructor
  · intro rest s
    rfl
  · intro resp
    induction resp with
    | nil =>
      intro s
      rfl
    | cons item rest ih =>
      intro s
      cases item with
      | none =>
        simp only [List.filterMap_cons]
        exact ih s
      | some status =>
        simp only [List.filterMap_cons, List.map_cons, processStatuses]
        cases hgt : getTask srv fuel s status.gid with
        | mk s1 r1 =>
          cases r1 with
          | error e => rfl
          | ok tid => exact ih (applyProgress s1 tid status ((alookup s.map status.gid).isNone))

end Naria2
